import Mathlib

/-
Verification of the grid-triangulation / simplicial-complex decomposition
engine of nipy (nipy/algorithms/statistics/utils.py): complex,
cube_with_strides_center, join_complexes, decompose3d, decompose2d,
test_EC3, test_EC2.

Modelling conventions.
* Vertex indices are integers (ℤ): the cube templates placed at negative
  centers genuinely contain negative flattened indices before translation.
* A face is kept as its sorted list of vertices, List ℤ.  Python's
  complex() stores dimension-1 faces as bare integers instead of length-1
  tuples; that unwrapping is applied by the function pyval below exactly
  where the dictionary produced by complex() is observed.  Inside
  join_complexes / set difference the two representations are isomorphic
  dimension by dimension.
* A Python dict {1: set, ..., n: set} of faces (keys are always exactly
  1..n in the source) is the list of its values: PyComplex, with key k
  stored at position k - 1.
* The generators decompose3d / decompose2d yield lists of vertices for
  dim > 1 and bare integers for dim == 1; a yielded value is a PyVal.
  Python iterates sets in unspecified order; we use a deterministic
  enumeration (setList); all stream properties proved are order-insensitive.
* numpy strides of np.empty((a,b,c), np.bool_) are (b*c, c, 1) (itemsize
  1); for a 2-d shape (m,n) they are (n, 1).
* ValueError raised by cube_with_strides_center is modelled by the
  Except-returning variants (cubeE, decompose3dE); the plain functions
  model the values computed when no exception occurs, and the lemmas
  relating the two show the generator never raises.
-/

namespace Nipy

/-- A value yielded by the decomposition generators: dimension-1 yields are
bare integers in the source, higher-dimensional simplices are lists. -/
inductive PyVal where
  | int (n : ℤ)
  | list (l : List ℤ)
deriving DecidableEq, Repr

/-- Model of simplex.sort() in complex(): a stable sort on integers. -/
def pysort (l : List ℤ) : List ℤ := l.insertionSort (· ≤ ·)

/-- The dimension-k face set built by complex(): for every maximal simplex,
sort it and add all k-element combinations (itertools.combinations on the
sorted list is exactly the length-k sublists). -/
def facesAt (maximal : List (List ℤ)) (k : ℕ) : Finset (List ℤ) :=
  maximal.foldl (fun acc s => acc ∪ ((pysort s).sublistsLen k).toFinset) ∅

/-- A complex() / join_complexes() dictionary: the set of dimension-k faces
is stored at list position k - 1 (keys are exactly 1..maxdim in the source). -/
abbrev PyComplex := List (Finset (List ℤ))

/-- complex(maximal): dict with keys 1..max(len(x) for x in maximal). -/
def complexFaces (maximal : List (List ℤ)) : PyComplex :=
  (List.range ((maximal.map List.length).foldr max 0)).map (fun i => facesAt maximal (i + 1))

/-- Python's unwrapping in complex(): a length-1 tuple is stored as its bare
element, longer tuples as tuples. -/
def pyval (l : List ℤ) : PyVal :=
  match l with
  | [v] => PyVal.int v
  | _ => PyVal.list l

/-- The observable value set of complex()'s dict at key k, with singleton
faces unwrapped to bare integers as the source does. -/
def pyFacesAt (maximal : List (List ℤ)) (k : ℕ) : Finset PyVal :=
  (facesAt maximal k).image pyval

/-- The default maximal simplices of complex(): the triangulation of the unit
cube into 6 tetrahedra. -/
def defaultMaximal : List (List ℤ) :=
  [[0, 3, 2, 7], [0, 6, 2, 7], [0, 7, 5, 4], [0, 7, 5, 1], [0, 7, 4, 6], [0, 3, 1, 7]]

/-- The corner list built by cube_with_strides_center: nested loops over k,
j, i (i fastest), vertex value Σ (center[axis] + bit_axis) * strides[axis].
The three dimensionalities are written out exactly as the source does. -/
def cubeVertices (center strides : List ℤ) : List ℤ :=
  match center, strides with
  | [c0, c1, c2], [s0, s1, s2] =>
      [c0 * s0 + c1 * s1 + c2 * s2,
       (c0 + 1) * s0 + c1 * s1 + c2 * s2,
       c0 * s0 + (c1 + 1) * s1 + c2 * s2,
       (c0 + 1) * s0 + (c1 + 1) * s1 + c2 * s2,
       c0 * s0 + c1 * s1 + (c2 + 1) * s2,
       (c0 + 1) * s0 + c1 * s1 + (c2 + 1) * s2,
       c0 * s0 + (c1 + 1) * s1 + (c2 + 1) * s2,
       (c0 + 1) * s0 + (c1 + 1) * s1 + (c2 + 1) * s2]
  | [c0, c1], [s0, s1] =>
      [c0 * s0 + c1 * s1, (c0 + 1) * s0 + c1 * s1,
       c0 * s0 + (c1 + 1) * s1, (c0 + 1) * s0 + (c1 + 1) * s1]
  | [c0], [s0] => [c0, c0 + s0]
  | _, _ => []

/-- The maximal simplices of cube_with_strides_center as corner positions,
per dimensionality d. -/
def maximalIdx (d : ℕ) : List (List ℕ) :=
  match d with
  | 3 => [[0, 3, 2, 7], [0, 6, 2, 7], [0, 7, 5, 4], [0, 7, 5, 1], [0, 7, 4, 6], [0, 3, 1, 7]]
  | 2 => [[0, 1, 3], [0, 2, 3]]
  | 1 => [[0, 1]]
  | _ => []

/-- The maximal simplices of cube_with_strides_center with corner positions
replaced by the corner vertex values. -/
def cubeMaximal (center strides : List ℤ) : List (List ℤ) :=
  (maximalIdx center.length).map (fun m => m.map (fun j => (cubeVertices center strides).getD j 0))

/-- cube_with_strides_center(center, strides): the face complex of the
translated cube template (value computed when no ValueError is raised). -/
def cube_with_strides_center (center strides : List ℤ) : PyComplex :=
  complexFaces (cubeMaximal center strides)

/-- cube_with_strides_center including its ValueError checks. -/
def cubeE (center strides : List ℤ) : Except String PyComplex :=
  if ¬(0 < center.length ∧ center.length ≤ 3) then
    Except.error "dimensionality must be 0 < d <= 3"
  else if strides.length ≠ center.length then
    Except.error "center and strides must have the same length"
  else Except.ok (cube_with_strides_center center strides)

/-- join_complexes(*complexes): per dimension 1..nmax, the union of all
inputs' face sets at that dimension (a dict lacking that key contributes
nothing, i.e. the empty set via getD). -/
def joinComplexes (cs : List PyComplex) : PyComplex :=
  (List.range ((cs.map List.length).foldr max 0)).map
    (fun i => cs.foldl (fun acc c => acc ∪ c.getD i ∅) ∅)

/-- unique[dim] of the decompose generators: the faces of the cube at the
origin not claimed by the joined neighbor complexes. -/
def templateAt (cc uni : PyComplex) (dim : ℕ) : Finset (List ℤ) :=
  cc.getD (dim - 1) ∅ \ uni.getD (dim - 1) ∅

/-- Enumerate a face set in a deterministic order (lexicographic); Python
iterates sets in unspecified order, and every property proved of the streams
is order-insensitive. -/
def setList (s : Finset (List ℤ)) : List (List ℤ) :=
  s.sort (· ≤ ·)

/-- One stratum's stream: for every base index, yield every face of the
template translated by that index ([index + ii for ii in l]). -/
def translateYields (tpl : Finset (List ℤ)) (positions : List ℤ) : List PyVal :=
  positions.flatMap (fun n => (setList tpl).map (fun l => PyVal.list (l.map (fun v => n + v))))

/-- Base indices of the interior voxels: i, j, k ranging below shape-1. -/
def positions3 (s : List ℤ) (a b c : ℕ) : List ℤ :=
  (List.range (a - 1)).flatMap fun i : ℕ => (List.range (b - 1)).flatMap fun j : ℕ =>
    (List.range (c - 1)).map fun k : ℕ =>
      (i : ℤ) * s.getD 0 0 + (j : ℤ) * s.getD 1 0 + (k : ℤ) * s.getD 2 0

/-- Base indices of a 2-dimensional stratum. -/
def positions2 (p q : ℤ) (m n : ℕ) : List ℤ :=
  (List.range (m - 1)).flatMap fun i : ℕ => (List.range (n - 1)).map fun j : ℕ =>
    (i : ℤ) * p + (j : ℤ) * q

/-- Base indices of a 1-dimensional stratum. -/
def positions1 (st : ℤ) (m : ℕ) : List ℤ :=
  (List.range (m - 1)).map fun i : ℕ => (i : ℤ) * st

/-- unique[dim] of the 3-d interior pass: faces of the origin cube not
claimed by the join of its 7 lower neighbors. -/
def interiorTemplate (s : List ℤ) (dim : ℕ) : Finset (List ℤ) :=
  templateAt (cube_with_strides_center [0, 0, 0] s)
    (joinComplexes
      [cube_with_strides_center [0, 0, -1] s, cube_with_strides_center [0, -1, 0] s,
       cube_with_strides_center [0, -1, -1] s, cube_with_strides_center [-1, 0, 0] s,
       cube_with_strides_center [-1, 0, -1] s, cube_with_strides_center [-1, -1, 0] s,
       cube_with_strides_center [-1, -1, -1] s]) dim

/-- unique[dim] of a 2-d pass: faces of the origin square not claimed by the
join of its 3 lower neighbors. -/
def slabTemplate (p q : ℤ) (dim : ℕ) : Finset (List ℤ) :=
  templateAt (cube_with_strides_center [0, 0] [p, q])
    (joinComplexes
      [cube_with_strides_center [0, -1] [p, q], cube_with_strides_center [-1, 0] [p, q],
       cube_with_strides_center [-1, -1] [p, q]]) dim

/-- unique[dim] of a 1-d pass: faces of the origin segment not claimed by
its single lower neighbor. -/
def edgeTemplate (st : ℤ) (dim : ℕ) : Finset (List ℤ) :=
  templateAt (cube_with_strides_center [0] [st]) (cube_with_strides_center [-1] [st]) dim

/-- The interior-voxel contribution of decompose3d: the unique-face template
emitted at every interior voxel.  The guard is dim in unique (keys 1..4)
and dim > 1. -/
def interiorYields (s : List ℤ) (a b c : ℕ) (dim : ℕ) : List PyVal :=
  if 1 < dim ∧ dim ≤ 4 then translateYields (interiorTemplate s dim) (positions3 s a b c)
  else []

/-- A 2-dimensional stratum of decompose3d (also the interior pass of
decompose2d, which is the same code).  The guard is dim in unique (keys
1..3) and dim > 1. -/
def slabYields (p q : ℤ) (m n : ℕ) (dim : ℕ) : List PyVal :=
  if 1 < dim ∧ dim ≤ 3 then translateYields (slabTemplate p q dim) (positions2 p q m n)
  else []

/-- A 1-dimensional stratum.  The guard is dim in unique (keys 1..2) and
dim > 1. -/
def edgeYields (st : ℤ) (m : ℕ) (dim : ℕ) : List PyVal :=
  if 1 < dim ∧ dim ≤ 2 then translateYields (edgeTemplate st dim) (positions1 st m)
  else []

/-- C-order strides of np.empty((a,b,c), np.bool_). -/
def strides3 (a b c : ℕ) : List ℤ := [((b * c : ℕ) : ℤ), ((c : ℕ) : ℤ), 1]

/-- C-order strides of np.empty((m,n), np.bool_). -/
def strides2 (m n : ℕ) : List ℤ := [((n : ℕ) : ℤ), 1]

/-- decompose3d(shape, dim) for shape = (a,b,c): interior stratum, the three
2-d strata in source order ((s0,s1),(s0,s2),(s1,s2)), the three 1-d strata,
then the bare vertex stream when dim == 1. -/
def decompose3d (a b c : ℕ) (dim : ℕ) : List PyVal :=
  let s := strides3 a b c
  interiorYields s a b c dim
    ++ slabYields (s.getD 0 0) (s.getD 1 0) a b dim
    ++ slabYields (s.getD 0 0) (s.getD 2 0) a c dim
    ++ slabYields (s.getD 1 0) (s.getD 2 0) b c dim
    ++ edgeYields (s.getD 0 0) a dim
    ++ edgeYields (s.getD 1 0) b dim
    ++ edgeYields (s.getD 2 0) c dim
    ++ (if dim = 1 then (List.range (a * b * c)).map (fun i : ℕ => PyVal.int (i : ℤ)) else [])

/-- decompose2d(shape, dim) for shape = (m,n). -/
def decompose2d (m n : ℕ) (dim : ℕ) : List PyVal :=
  let s := strides2 m n
  slabYields (s.getD 0 0) (s.getD 1 0) m n dim
    ++ edgeYields (s.getD 0 0) m dim
    ++ edgeYields (s.getD 1 0) n dim
    ++ (if dim = 1 then (List.range (m * n)).map (fun i : ℕ => PyVal.int (i : ℤ)) else [])

/-- test_EC3: counts of tetrahedra, triangles, edges, vertices and the
alternating-sign accumulation (ec starts at 0; -1 per tetrahedron, +1 per
triangle, -1 per edge, +1 per vertex). -/
def testEC3 (a b c : ℕ) : ℕ × ℕ × ℕ × ℕ × ℤ :=
  let ts := (decompose3d a b c 4).length
  let fs := (decompose3d a b c 3).length
  let es := (decompose3d a b c 2).length
  let vs := (decompose3d a b c 1).length
  (ts, fs, es, vs, (vs : ℤ) + (fs : ℤ) - (ts : ℤ) - (es : ℤ))

/-- test_EC2: counts of triangles, edges, vertices and the alternating-sign
accumulation. -/
def testEC2 (m n : ℕ) : ℕ × ℕ × ℕ × ℤ :=
  let fs := (decompose2d m n 3).length
  let es := (decompose2d m n 2).length
  let vs := (decompose2d m n 1).length
  (fs, es, vs, (vs : ℤ) + (fs : ℤ) - (es : ℤ))

/-- C-order strides of np.empty(shape, np.bool_) for an arbitrary shape:
stride i is the product of the axis lengths after axis i. -/
def stridesOf : List ℕ → List ℤ
  | [] => []
  | _ :: t => ((t.foldr (· * ·) 1 : ℕ) : ℤ) :: stridesOf t

/-- The interior pass with the ValueError behavior of its
cube_with_strides_center calls made explicit. -/
def interiorYieldsE (s : List ℤ) (a b c : ℕ) (dim : ℕ) : Except String (List PyVal) := do
  let n1 ← cubeE [0, 0, -1] s
  let n2 ← cubeE [0, -1, 0] s
  let n3 ← cubeE [0, -1, -1] s
  let n4 ← cubeE [-1, 0, 0] s
  let n5 ← cubeE [-1, 0, -1] s
  let n6 ← cubeE [-1, -1, 0] s
  let n7 ← cubeE [-1, -1, -1] s
  let cc ← cubeE [0, 0, 0] s
  pure (if 1 < dim ∧ dim ≤ 4 then
      translateYields (templateAt cc (joinComplexes [n1, n2, n3, n4, n5, n6, n7]) dim)
        (positions3 s a b c)
    else [])

/-- A 2-d pass with explicit ValueError behavior. -/
def slabYieldsE (p q : ℤ) (m n : ℕ) (dim : ℕ) : Except String (List PyVal) := do
  let n1 ← cubeE [0, -1] [p, q]
  let n2 ← cubeE [-1, 0] [p, q]
  let n3 ← cubeE [-1, -1] [p, q]
  let cc ← cubeE [0, 0] [p, q]
  pure (if 1 < dim ∧ dim ≤ 3 then
      translateYields (templateAt cc (joinComplexes [n1, n2, n3]) dim) (positions2 p q m n)
    else [])

/-- A 1-d pass with explicit ValueError behavior. -/
def edgeYieldsE (st : ℤ) (m : ℕ) (dim : ℕ) : Except String (List PyVal) := do
  let uni ← cubeE [-1] [st]
  let cc ← cubeE [0] [st]
  pure (if 1 < dim ∧ dim ≤ 2 then translateYields (templateAt cc uni dim) (positions1 st m)
    else [])

/-- decompose3d with the ValueError behavior of every
cube_with_strides_center call made explicit: the generator raises if and
only if one of those calls does (for a non-3-d shape the very first
interior cube call receives strides of the wrong length and raises). -/
def decompose3dE (shape : List ℕ) (dim : ℕ) : Except String (List PyVal) := do
  let s := stridesOf shape
  let intY ← interiorYieldsE s (shape.getD 0 0) (shape.getD 1 0) (shape.getD 2 0) dim
  let s01 ← slabYieldsE (s.getD 0 0) (s.getD 1 0) (shape.getD 0 0) (shape.getD 1 0) dim
  let s02 ← slabYieldsE (s.getD 0 0) (s.getD 2 0) (shape.getD 0 0) (shape.getD 2 0) dim
  let s12 ← slabYieldsE (s.getD 1 0) (s.getD 2 0) (shape.getD 1 0) (shape.getD 2 0) dim
  let e0 ← edgeYieldsE (s.getD 0 0) (shape.getD 0 0) dim
  let e1 ← edgeYieldsE (s.getD 1 0) (shape.getD 1 0) dim
  let e2 ← edgeYieldsE (s.getD 2 0) (shape.getD 2 0) dim
  pure (intY ++ s01 ++ s02 ++ s12 ++ e0 ++ e1 ++ e2 ++
    (if dim = 1 then
      (List.range (shape.foldr (· * ·) 1)).map (fun i : ℕ => PyVal.int (i : ℤ))
    else []))

/-- The last vertex of a yielded simplex (none for a bare vertex yield);
for the translated template faces this is the maximal vertex. -/
def pyLast : PyVal → Option ℤ
  | PyVal.int _ => none
  | PyVal.list l => l.getLast?

/-- The unordered vertex set of a yielded value: a bare vertex index gives a
singleton, a simplex gives the set of its entries. -/
def pyVertexSet : PyVal → Finset ℤ
  | PyVal.int n => {n}
  | PyVal.list l => l.toFinset

/-! ### Generic helper lemmas -/

theorem mem_foldl_union {α β : Type} [DecidableEq β] (g : α → Finset β) (M : List α) :
    ∀ (acc : Finset β) (x : β),
      x ∈ M.foldl (fun A s => A ∪ g s) acc ↔ x ∈ acc ∨ ∃ s ∈ M, x ∈ g s := by
  induction M with
  | nil => intro acc x; simp
  | cons h t ih =>
      intro acc x
      rw [List.foldl_cons, ih]
      simp [Finset.mem_union, or_assoc]

theorem mem_facesAt {M : List (List ℤ)} {k : ℕ} {x : List ℤ} :
    x ∈ facesAt M k ↔ ∃ s ∈ M, List.Sublist x (pysort s) ∧ x.length = k := by
  unfold facesAt
  rw [mem_foldl_union]
  simp [List.mem_sublistsLen]

theorem getD_map_range {α : Type} (f : ℕ → α) (d : α) (n i : ℕ) :
    ((List.range n).map f).getD i d = if i < n then f i else d := by
  by_cases h : i < n
  · rw [if_pos h, List.getD_eq_getElem?_getD, List.getElem?_map, List.getElem?_range h]
    rfl
  · rw [if_neg h]
    exact List.getD_eq_default _ _ (by simp; omega)

theorem le_foldr_max (l : List ℕ) (x : ℕ) (hx : x ∈ l) : x ≤ l.foldr max 0 := by
  induction l with
  | nil => cases hx
  | cons h t ih =>
      rcases List.mem_cons.1 hx with rfl | hm
      · exact le_max_left _ _
      · exact le_trans (ih hm) (le_max_right _ _)

theorem mem_joinComplexes_getD (cs : List PyComplex) (i : ℕ) (x : List ℤ) :
    x ∈ (joinComplexes cs).getD i ∅ ↔ ∃ c ∈ cs, x ∈ c.getD i ∅ := by
  unfold joinComplexes
  rw [getD_map_range]
  split
  · rw [mem_foldl_union]; simp
  · rename_i hge
    push_neg at hge
    constructor
    · intro h; exact absurd h (Finset.not_mem_empty x)
    · rintro ⟨c, hc, hx⟩
      have h1 : c.length ≤ (cs.map List.length).foldr max 0 :=
        le_foldr_max _ _ (List.mem_map_of_mem _ hc)
      rw [List.getD_eq_default _ _ (le_trans h1 hge)] at hx
      exact absurd hx (Finset.not_mem_empty x)

theorem pysort_sorted (l : List ℤ) : List.Sorted (· ≤ ·) (pysort l) :=
  List.sorted_insertionSort _ l

theorem pysort_perm (l : List ℤ) : (pysort l).Perm l :=
  List.perm_insertionSort _ l

theorem pysort_map_add (t : ℤ) (l : List ℤ) :
    pysort (l.map (fun v => t + v)) = (pysort l).map (fun v => t + v) := by
  refine List.eq_of_perm_of_sorted ?_ (pysort_sorted _) ?_
  · exact (pysort_perm _).trans ((pysort_perm l).map _).symm
  · exact List.Pairwise.map _ (fun a b h => by omega) (pysort_sorted l)

theorem sublist_len_two_of_quad {α : Type} (x : List α) (a b c d : α) :
    (List.Sublist x [a, b, c, d] ∧ x.length = 2) ↔
      (x = [c, d] ∨ x = [b, d] ∨ x = [b, c] ∨ x = [a, d] ∨ x = [a, c] ∨ x = [a, b]) := by
  rw [← List.mem_sublistsLen,
    show List.sublistsLen 2 [a, b, c, d] =
      [[c, d], [b, d], [b, c], [a, d], [a, c], [a, b]] from rfl]
  simp [List.mem_cons]

theorem sublist_len_three_of_quad {α : Type} (x : List α) (a b c d : α) :
    (List.Sublist x [a, b, c, d] ∧ x.length = 3) ↔
      (x = [b, c, d] ∨ x = [a, c, d] ∨ x = [a, b, d] ∨ x = [a, b, c]) := by
  rw [← List.mem_sublistsLen,
    show List.sublistsLen 3 [a, b, c, d] =
      [[b, c, d], [a, c, d], [a, b, d], [a, b, c]] from rfl]
  simp [List.mem_cons]

theorem sublist_len_four_of_quad {α : Type} (x : List α) (a b c d : α) :
    (List.Sublist x [a, b, c, d] ∧ x.length = 4) ↔ x = [a, b, c, d] := by
  rw [← List.mem_sublistsLen,
    show List.sublistsLen 4 [a, b, c, d] = [[a, b, c, d]] from rfl]
  simp

theorem sublist_len_two_of_tri {α : Type} (x : List α) (a b c : α) :
    (List.Sublist x [a, b, c] ∧ x.length = 2) ↔ (x = [b, c] ∨ x = [a, c] ∨ x = [a, b]) := by
  rw [← List.mem_sublistsLen,
    show List.sublistsLen 2 [a, b, c] = [[b, c], [a, c], [a, b]] from rfl]
  simp [List.mem_cons]

theorem sublist_len_three_of_tri {α : Type} (x : List α) (a b c : α) :
    (List.Sublist x [a, b, c] ∧ x.length = 3) ↔ x = [a, b, c] := by
  rw [← List.mem_sublistsLen,
    show List.sublistsLen 3 [a, b, c] = [[a, b, c]] from rfl]
  simp

theorem sublist_len_two_of_pair {α : Type} (x : List α) (a b : α) :
    (List.Sublist x [a, b] ∧ x.length = 2) ↔ x = [a, b] := by
  rw [← List.mem_sublistsLen,
    show List.sublistsLen 2 [a, b] = [[a, b]] from rfl]
  simp

/-! ### Structure of the cube complexes -/

theorem cubeMaximal3_base (s0 s1 s2 : ℤ) :
    cubeMaximal [0, 0, 0] [s0, s1, s2] =
      [[0, s0 + s1, s1, s0 + s1 + s2], [0, s1 + s2, s1, s0 + s1 + s2],
       [0, s0 + s1 + s2, s0 + s2, s2], [0, s0 + s1 + s2, s0 + s2, s0],
       [0, s0 + s1 + s2, s2, s1 + s2], [0, s0 + s1, s0, s0 + s1 + s2]] := by
  simp [cubeMaximal, cubeVertices, maximalIdx]

theorem cubeMaximal2_base (p q : ℤ) :
    cubeMaximal [0, 0] [p, q] = [[0, p, p + q], [0, q, p + q]] := by
  simp [cubeMaximal, cubeVertices, maximalIdx]

theorem cubeMaximal1_base (st : ℤ) : cubeMaximal [0] [st] = [[0, st]] := by
  simp [cubeMaximal, cubeVertices, maximalIdx]

theorem cubeMaximal3_shift (c0 c1 c2 s0 s1 s2 t : ℤ)
    (ht : t = c0 * s0 + c1 * s1 + c2 * s2) :
    cubeMaximal [c0, c1, c2] [s0, s1, s2] =
      (cubeMaximal [0, 0, 0] [s0, s1, s2]).map (List.map (fun v => t + v)) := by
  subst ht
  rw [cubeMaximal3_base]
  simp [cubeMaximal, cubeVertices, maximalIdx]
  norm_num
  all_goals try ring
  all_goals tauto

theorem cubeMaximal2_shift (c0 c1 p q t : ℤ) (ht : t = c0 * p + c1 * q) :
    cubeMaximal [c0, c1] [p, q] =
      (cubeMaximal [0, 0] [p, q]).map (List.map (fun v => t + v)) := by
  subst ht
  rw [cubeMaximal2_base]
  simp [cubeMaximal, cubeVertices, maximalIdx]
  norm_num
  all_goals try ring
  all_goals tauto

theorem cubeMaximal1_shift (c0 st t : ℤ) (ht : t = c0) :
    cubeMaximal [c0] [st] = (cubeMaximal [0] [st]).map (List.map (fun v => t + v)) := by
  subst ht
  rw [cubeMaximal1_base]
  simp [cubeMaximal, cubeVertices, maximalIdx]

theorem cube3_getD (c0 c1 c2 s0 s1 s2 : ℤ) (k : ℕ) (hk : k < 4) :
    (cube_with_strides_center [c0, c1, c2] [s0, s1, s2]).getD k ∅ =
      facesAt (cubeMaximal [c0, c1, c2] [s0, s1, s2]) (k + 1) := by
  unfold cube_with_strides_center complexFaces
  rw [getD_map_range,
    show ((cubeMaximal [c0, c1, c2] [s0, s1, s2]).map List.length).foldr max 0 = 4 from rfl,
    if_pos hk]

theorem cube2_getD (c0 c1 p q : ℤ) (k : ℕ) (hk : k < 3) :
    (cube_with_strides_center [c0, c1] [p, q]).getD k ∅ =
      facesAt (cubeMaximal [c0, c1] [p, q]) (k + 1) := by
  unfold cube_with_strides_center complexFaces
  rw [getD_map_range,
    show ((cubeMaximal [c0, c1] [p, q]).map List.length).foldr max 0 = 3 from rfl,
    if_pos hk]

theorem cube1_getD (c0 st : ℤ) (k : ℕ) (hk : k < 2) :
    (cube_with_strides_center [c0] [st]).getD k ∅ =
      facesAt (cubeMaximal [c0] [st]) (k + 1) := by
  unfold cube_with_strides_center complexFaces
  rw [getD_map_range,
    show ((cubeMaximal [c0] [st]).map List.length).foldr max 0 = 2 from rfl,
    if_pos hk]

theorem mem_facesAt_shift (t : ℤ) (M : List (List ℤ)) (k : ℕ) (x : List ℤ) :
    x ∈ facesAt (M.map (List.map (fun v => t + v))) k ↔
      ∃ y ∈ facesAt M k, x = y.map (fun v => t + v) := by
  rw [mem_facesAt]
  constructor
  · rintro ⟨s, hs, hsub, hlen⟩
    rcases List.mem_map.1 hs with ⟨s', hs', rfl⟩
    rw [pysort_map_add] at hsub
    rcases List.sublist_map_iff.1 hsub with ⟨y, hysub, rfl⟩
    refine ⟨y, mem_facesAt.2 ⟨s', hs', hysub, ?_⟩, rfl⟩
    simpa using hlen
  · rintro ⟨y, hy, rfl⟩
    rcases mem_facesAt.1 hy with ⟨s, hs, hsub, hlen⟩
    exact ⟨s.map (fun v => t + v), List.mem_map_of_mem _ hs,
      by rw [pysort_map_add]; exact hsub.map _, by simpa using hlen⟩

theorem mem_cubeShift3 (c0 c1 c2 s0 s1 s2 t : ℤ) (ht : t = c0 * s0 + c1 * s1 + c2 * s2)
    (i : ℕ) (hi : i < 4) (x : List ℤ) :
    x ∈ (cube_with_strides_center [c0, c1, c2] [s0, s1, s2]).getD i ∅ ↔
      ∃ y ∈ facesAt (cubeMaximal [0, 0, 0] [s0, s1, s2]) (i + 1),
        x = y.map (fun v => t + v) := by
  rw [cube3_getD _ _ _ _ _ _ _ hi, cubeMaximal3_shift c0 c1 c2 s0 s1 s2 t ht,
    mem_facesAt_shift]

theorem mem_cubeShift2 (c0 c1 p q t : ℤ) (ht : t = c0 * p + c1 * q)
    (i : ℕ) (hi : i < 3) (x : List ℤ) :
    x ∈ (cube_with_strides_center [c0, c1] [p, q]).getD i ∅ ↔
      ∃ y ∈ facesAt (cubeMaximal [0, 0] [p, q]) (i + 1), x = y.map (fun v => t + v) := by
  rw [cube2_getD _ _ _ _ _ hi, cubeMaximal2_shift c0 c1 p q t ht, mem_facesAt_shift]

theorem mem_cubeShift1 (c0 st t : ℤ) (ht : t = c0)
    (i : ℕ) (hi : i < 2) (x : List ℤ) :
    x ∈ (cube_with_strides_center [c0] [st]).getD i ∅ ↔
      ∃ y ∈ facesAt (cubeMaximal [0] [st]) (i + 1), x = y.map (fun v => t + v) := by
  rw [cube1_getD _ _ _ hi, cubeMaximal1_shift c0 st t ht, mem_facesAt_shift]

/-! ### Sorting the instantiated maximal simplices -/

theorem perm_rev3 {α : Type} (x y z : α) : List.Perm [x, y, z] [z, y, x] :=
  ((List.Perm.swap y x [z]).trans (List.Perm.cons y (List.Perm.swap z x []))).trans
    (List.Perm.swap z y [x])

theorem perm_rot3 {α : Type} (x y z : α) : List.Perm [x, y, z] [y, z, x] :=
  (List.Perm.swap y x [z]).trans (List.Perm.cons y (List.Perm.swap z x []))

theorem pysort3_1 (s0 s1 : ℤ) (h1 : 2 ≤ s1) (h0 : 2 * s1 ≤ s0) :
    pysort [0, s0 + s1, s1, s0 + s1 + 1] = [0, s1, s0 + s1, s0 + s1 + 1] := by
  refine List.eq_of_perm_of_sorted
    ((pysort_perm _).trans (List.Perm.cons 0 (List.Perm.swap s1 (s0 + s1) [s0 + s1 + 1])))
    (pysort_sorted _) ?_
  simp [List.sorted_cons]
  omega

theorem pysort3_2 (s0 s1 : ℤ) (h1 : 2 ≤ s1) (h0 : 2 * s1 ≤ s0) :
    pysort [0, s1 + 1, s1, s0 + s1 + 1] = [0, s1, s1 + 1, s0 + s1 + 1] := by
  refine List.eq_of_perm_of_sorted
    ((pysort_perm _).trans (List.Perm.cons 0 (List.Perm.swap s1 (s1 + 1) [s0 + s1 + 1])))
    (pysort_sorted _) ?_
  simp [List.sorted_cons]
  omega

theorem pysort3_3 (s0 s1 : ℤ) (h1 : 2 ≤ s1) (h0 : 2 * s1 ≤ s0) :
    pysort [0, s0 + s1 + 1, s0 + 1, 1] = [0, 1, s0 + 1, s0 + s1 + 1] := by
  refine List.eq_of_perm_of_sorted
    ((pysort_perm _).trans (List.Perm.cons 0 (perm_rev3 (s0 + s1 + 1) (s0 + 1) 1)))
    (pysort_sorted _) ?_
  simp [List.sorted_cons]
  omega

theorem pysort3_4 (s0 s1 : ℤ) (h1 : 2 ≤ s1) (h0 : 2 * s1 ≤ s0) :
    pysort [0, s0 + s1 + 1, s0 + 1, s0] = [0, s0, s0 + 1, s0 + s1 + 1] := by
  refine List.eq_of_perm_of_sorted
    ((pysort_perm _).trans (List.Perm.cons 0 (perm_rev3 (s0 + s1 + 1) (s0 + 1) s0)))
    (pysort_sorted _) ?_
  simp [List.sorted_cons]
  omega

theorem pysort3_5 (s0 s1 : ℤ) (h1 : 2 ≤ s1) (h0 : 2 * s1 ≤ s0) :
    pysort [0, s0 + s1 + 1, 1, s1 + 1] = [0, 1, s1 + 1, s0 + s1 + 1] := by
  refine List.eq_of_perm_of_sorted
    ((pysort_perm _).trans (List.Perm.cons 0 (perm_rot3 (s0 + s1 + 1) 1 (s1 + 1))))
    (pysort_sorted _) ?_
  simp [List.sorted_cons]
  omega

theorem pysort3_6 (s0 s1 : ℤ) (h1 : 2 ≤ s1) (h0 : 2 * s1 ≤ s0) :
    pysort [0, s0 + s1, s0, s0 + s1 + 1] = [0, s0, s0 + s1, s0 + s1 + 1] := by
  refine List.eq_of_perm_of_sorted
    ((pysort_perm _).trans (List.Perm.cons 0 (List.Perm.swap s0 (s0 + s1) [s0 + s1 + 1])))
    (pysort_sorted _) ?_
  simp [List.sorted_cons]
  omega

theorem pysort_of_sorted {l : List ℤ} (h : List.Sorted (· ≤ ·) l) : pysort l = l :=
  List.eq_of_perm_of_sorted (pysort_perm l) (pysort_sorted l) h

theorem pysort2_1 (p q : ℤ) (hq : 1 ≤ q) (hp : 2 * q ≤ p) :
    pysort [0, p, p + q] = [0, p, p + q] := by
  refine pysort_of_sorted ?_
  simp [List.sorted_cons]
  omega

theorem pysort2_2 (p q : ℤ) (hq : 1 ≤ q) (hp : 2 * q ≤ p) :
    pysort [0, q, p + q] = [0, q, p + q] := by
  refine pysort_of_sorted ?_
  simp [List.sorted_cons]
  omega

theorem pysort1_1 (st : ℤ) (hst : 1 ≤ st) : pysort [0, st] = [0, st] := by
  refine pysort_of_sorted ?_
  simp [List.sorted_cons]
  omega

/-! ### Membership in the base cube faces -/

theorem mem_base3_two (s0 s1 : ℤ) (h1 : 2 ≤ s1) (h0 : 2 * s1 ≤ s0) (x : List ℤ) :
    x ∈ facesAt (cubeMaximal [0, 0, 0] [s0, s1, 1]) 2 ↔
      (x = [0, 1] ∨ x = [0, s1] ∨ x = [0, s1 + 1] ∨ x = [0, s0] ∨ x = [0, s0 + 1] ∨
       x = [0, s0 + s1] ∨ x = [0, s0 + s1 + 1] ∨ x = [1, s0 + 1] ∨ x = [1, s1 + 1] ∨
       x = [s1, s1 + 1] ∨ x = [s1, s0 + s1] ∨ x = [s0, s0 + 1] ∨ x = [s0, s0 + s1] ∨
       x = [1, s0 + s1 + 1] ∨ x = [s1, s0 + s1 + 1] ∨ x = [s1 + 1, s0 + s1 + 1] ∨
       x = [s0, s0 + s1 + 1] ∨ x = [s0 + 1, s0 + s1 + 1] ∨ x = [s0 + s1, s0 + s1 + 1]) := by
  rw [mem_facesAt, cubeMaximal3_base]
  simp only [List.mem_cons, List.not_mem_nil, or_false, exists_eq_or_imp, exists_eq_left,
    exists_false]
  rw [pysort3_1 s0 s1 h1 h0, pysort3_2 s0 s1 h1 h0, pysort3_3 s0 s1 h1 h0,
    pysort3_4 s0 s1 h1 h0, pysort3_5 s0 s1 h1 h0, pysort3_6 s0 s1 h1 h0,
    sublist_len_two_of_quad, sublist_len_two_of_quad, sublist_len_two_of_quad,
    sublist_len_two_of_quad, sublist_len_two_of_quad, sublist_len_two_of_quad]
  constructor
  · intro h
    rcases h with (h | h | h | h | h | h) <;>
      rcases h with (rfl | rfl | rfl | rfl | rfl | rfl) <;> simp
  · intro h
    rcases h with (rfl | rfl | rfl | rfl | rfl | rfl | rfl | rfl | rfl | rfl | rfl | rfl |
      rfl | rfl | rfl | rfl | rfl | rfl | rfl) <;> simp

theorem mem_base3_three (s0 s1 : ℤ) (h1 : 2 ≤ s1) (h0 : 2 * s1 ≤ s0) (x : List ℤ) :
    x ∈ facesAt (cubeMaximal [0, 0, 0] [s0, s1, 1]) 3 ↔
      (x = [0, s1, s0 + s1] ∨ x = [0, s1, s1 + 1] ∨ x = [0, 1, s0 + 1] ∨
       x = [0, s0, s0 + 1] ∨ x = [0, 1, s1 + 1] ∨ x = [0, s0, s0 + s1] ∨
       x = [0, 1, s0 + s1 + 1] ∨ x = [0, s1, s0 + s1 + 1] ∨ x = [0, s1 + 1, s0 + s1 + 1] ∨
       x = [0, s0, s0 + s1 + 1] ∨ x = [0, s0 + 1, s0 + s1 + 1] ∨
       x = [0, s0 + s1, s0 + s1 + 1] ∨ x = [1, s0 + 1, s0 + s1 + 1] ∨
       x = [1, s1 + 1, s0 + s1 + 1] ∨ x = [s1, s1 + 1, s0 + s1 + 1] ∨
       x = [s1, s0 + s1, s0 + s1 + 1] ∨ x = [s0, s0 + 1, s0 + s1 + 1] ∨
       x = [s0, s0 + s1, s0 + s1 + 1]) := by
  rw [mem_facesAt, cubeMaximal3_base]
  simp only [List.mem_cons, List.not_mem_nil, or_false, exists_eq_or_imp, exists_eq_left,
    exists_false]
  rw [pysort3_1 s0 s1 h1 h0, pysort3_2 s0 s1 h1 h0, pysort3_3 s0 s1 h1 h0,
    pysort3_4 s0 s1 h1 h0, pysort3_5 s0 s1 h1 h0, pysort3_6 s0 s1 h1 h0,
    sublist_len_three_of_quad, sublist_len_three_of_quad, sublist_len_three_of_quad,
    sublist_len_three_of_quad, sublist_len_three_of_quad, sublist_len_three_of_quad]
  constructor
  · intro h
    rcases h with (h | h | h | h | h | h) <;>
      rcases h with (rfl | rfl | rfl | rfl) <;> simp
  · intro h
    rcases h with (rfl | rfl | rfl | rfl | rfl | rfl | rfl | rfl | rfl | rfl | rfl | rfl |
      rfl | rfl | rfl | rfl | rfl | rfl) <;> simp

theorem mem_base3_four (s0 s1 : ℤ) (h1 : 2 ≤ s1) (h0 : 2 * s1 ≤ s0) (x : List ℤ) :
    x ∈ facesAt (cubeMaximal [0, 0, 0] [s0, s1, 1]) 4 ↔
      (x = [0, s1, s0 + s1, s0 + s1 + 1] ∨ x = [0, s1, s1 + 1, s0 + s1 + 1] ∨
       x = [0, 1, s0 + 1, s0 + s1 + 1] ∨ x = [0, s0, s0 + 1, s0 + s1 + 1] ∨
       x = [0, 1, s1 + 1, s0 + s1 + 1] ∨ x = [0, s0, s0 + s1, s0 + s1 + 1]) := by
  rw [mem_facesAt, cubeMaximal3_base]
  simp only [List.mem_cons, List.not_mem_nil, or_false, exists_eq_or_imp, exists_eq_left,
    exists_false]
  rw [pysort3_1 s0 s1 h1 h0, pysort3_2 s0 s1 h1 h0, pysort3_3 s0 s1 h1 h0,
    pysort3_4 s0 s1 h1 h0, pysort3_5 s0 s1 h1 h0, pysort3_6 s0 s1 h1 h0,
    sublist_len_four_of_quad, sublist_len_four_of_quad, sublist_len_four_of_quad,
    sublist_len_four_of_quad, sublist_len_four_of_quad, sublist_len_four_of_quad]

theorem mem_base2_two (p q : ℤ) (hq : 1 ≤ q) (hp : 2 * q ≤ p) (x : List ℤ) :
    x ∈ facesAt (cubeMaximal [0, 0] [p, q]) 2 ↔
      (x = [0, p] ∨ x = [0, q] ∨ x = [0, p + q] ∨ x = [p, p + q] ∨ x = [q, p + q]) := by
  rw [mem_facesAt, cubeMaximal2_base]
  simp only [List.mem_cons, List.not_mem_nil, or_false, exists_eq_or_imp, exists_eq_left,
    exists_false]
  rw [pysort2_1 p q hq hp, pysort2_2 p q hq hp, sublist_len_two_of_tri,
    sublist_len_two_of_tri]
  tauto

theorem mem_base2_three (p q : ℤ) (hq : 1 ≤ q) (hp : 2 * q ≤ p) (x : List ℤ) :
    x ∈ facesAt (cubeMaximal [0, 0] [p, q]) 3 ↔
      (x = [0, p, p + q] ∨ x = [0, q, p + q]) := by
  rw [mem_facesAt, cubeMaximal2_base]
  simp only [List.mem_cons, List.not_mem_nil, or_false, exists_eq_or_imp, exists_eq_left,
    exists_false]
  rw [pysort2_1 p q hq hp, pysort2_2 p q hq hp, sublist_len_three_of_tri,
    sublist_len_three_of_tri]

theorem mem_base1_two (st : ℤ) (hst : 1 ≤ st) (x : List ℤ) :
    x ∈ facesAt (cubeMaximal [0] [st]) 2 ↔ x = [0, st] := by
  rw [mem_facesAt, cubeMaximal1_base]
  simp only [List.mem_cons, List.not_mem_nil, or_false, exists_eq_or_imp, exists_eq_left,
    exists_false]
  rw [pysort1_1 st hst, sublist_len_two_of_pair]

/-! ### Membership in the joined neighbor complexes -/

theorem exists_mem_iff_of_forall₂ {α β : Type} {cs : List α} {ts : List β}
    {Q : α → Prop} {P : β → Prop} (h : List.Forall₂ (fun c t => Q c ↔ P t) cs ts) :
    (∃ c ∈ cs, Q c) ↔ ∃ t ∈ ts, P t := by
  induction h with
  | nil => simp
  | @cons a b l1 l2 hab hrest ih =>
      constructor
      · rintro ⟨c, hc, hq⟩
        rcases List.mem_cons.1 hc with rfl | hc'
        · exact ⟨b, List.mem_cons_self _ _, hab.1 hq⟩
        · obtain ⟨t, ht, hp⟩ := ih.1 ⟨c, hc', hq⟩
          exact ⟨t, List.mem_cons_of_mem _ ht, hp⟩
      · rintro ⟨t, ht, hp⟩
        rcases List.mem_cons.1 ht with rfl | ht'
        · exact ⟨a, List.mem_cons_self _ _, hab.2 hp⟩
        · obtain ⟨c, hc, hq⟩ := ih.2 ⟨t, ht', hp⟩
          exact ⟨c, List.mem_cons_of_mem _ hc, hq⟩

theorem mem_uni3 (s0 s1 : ℤ) (i : ℕ) (hi : i < 4) (x : List ℤ) :
    x ∈ (joinComplexes
      [cube_with_strides_center [0, 0, -1] [s0, s1, 1],
       cube_with_strides_center [0, -1, 0] [s0, s1, 1],
       cube_with_strides_center [0, -1, -1] [s0, s1, 1],
       cube_with_strides_center [-1, 0, 0] [s0, s1, 1],
       cube_with_strides_center [-1, 0, -1] [s0, s1, 1],
       cube_with_strides_center [-1, -1, 0] [s0, s1, 1],
       cube_with_strides_center [-1, -1, -1] [s0, s1, 1]]).getD i ∅ ↔
    ∃ t ∈ ([-1, -s1, -s1 - 1, -s0, -s0 - 1, -s0 - s1, -s0 - s1 - 1] : List ℤ),
      ∃ y ∈ facesAt (cubeMaximal [0, 0, 0] [s0, s1, 1]) (i + 1),
        x = y.map (fun v => t + v) := by
  rw [mem_joinComplexes_getD]
  refine exists_mem_iff_of_forall₂ ?_
  exact List.Forall₂.cons (mem_cubeShift3 0 0 (-1) s0 s1 1 (-1) (by ring) i hi x)
    (List.Forall₂.cons (mem_cubeShift3 0 (-1) 0 s0 s1 1 (-s1) (by ring) i hi x)
    (List.Forall₂.cons (mem_cubeShift3 0 (-1) (-1) s0 s1 1 (-s1 - 1) (by ring) i hi x)
    (List.Forall₂.cons (mem_cubeShift3 (-1) 0 0 s0 s1 1 (-s0) (by ring) i hi x)
    (List.Forall₂.cons (mem_cubeShift3 (-1) 0 (-1) s0 s1 1 (-s0 - 1) (by ring) i hi x)
    (List.Forall₂.cons (mem_cubeShift3 (-1) (-1) 0 s0 s1 1 (-s0 - s1) (by ring) i hi x)
    (List.Forall₂.cons
      (mem_cubeShift3 (-1) (-1) (-1) s0 s1 1 (-s0 - s1 - 1) (by ring) i hi x)
      List.Forall₂.nil))))))

theorem mem_uni2 (p q : ℤ) (i : ℕ) (hi : i < 3) (x : List ℤ) :
    x ∈ (joinComplexes
      [cube_with_strides_center [0, -1] [p, q],
       cube_with_strides_center [-1, 0] [p, q],
       cube_with_strides_center [-1, -1] [p, q]]).getD i ∅ ↔
    ∃ t ∈ ([-q, -p, -p - q] : List ℤ),
      ∃ y ∈ facesAt (cubeMaximal [0, 0] [p, q]) (i + 1), x = y.map (fun v => t + v) := by
  rw [mem_joinComplexes_getD]
  refine exists_mem_iff_of_forall₂ ?_
  exact List.Forall₂.cons (mem_cubeShift2 0 (-1) p q (-q) (by ring) i hi x)
    (List.Forall₂.cons (mem_cubeShift2 (-1) 0 p q (-p) (by ring) i hi x)
    (List.Forall₂.cons (mem_cubeShift2 (-1) (-1) p q (-p - q) (by ring) i hi x)
      List.Forall₂.nil))

/-! ### Bounds on the entries of base faces -/

theorem base3_bounds (s0 s1 : ℤ) (h1 : 2 ≤ s1) (h0 : 2 * s1 ≤ s0) (k : ℕ) (y : List ℤ)
    (hy : y ∈ facesAt (cubeMaximal [0, 0, 0] [s0, s1, 1]) k) :
    ∀ e ∈ y, 0 ≤ e ∧ e ≤ s0 + s1 + 1 := by
  rcases mem_facesAt.1 hy with ⟨s, hs, hsub, -⟩
  intro e he
  have hes : e ∈ s := ((pysort_perm s).mem_iff).1 (hsub.subset he)
  rw [cubeMaximal3_base] at hs
  simp only [List.mem_cons, List.not_mem_nil, or_false] at hs
  rcases hs with rfl | rfl | rfl | rfl | rfl | rfl <;> simp at hes <;> omega

theorem base2_bounds (p q : ℤ) (hq : 1 ≤ q) (hp : 2 * q ≤ p) (k : ℕ) (y : List ℤ)
    (hy : y ∈ facesAt (cubeMaximal [0, 0] [p, q]) k) :
    ∀ e ∈ y, 0 ≤ e ∧ e ≤ p + q := by
  rcases mem_facesAt.1 hy with ⟨s, hs, hsub, -⟩
  intro e he
  have hes : e ∈ s := ((pysort_perm s).mem_iff).1 (hsub.subset he)
  rw [cubeMaximal2_base] at hs
  simp only [List.mem_cons, List.not_mem_nil, or_false] at hs
  rcases hs with rfl | rfl <;> simp at hes <;> omega

theorem base1_bounds (st : ℤ) (hst : 1 ≤ st) (k : ℕ) (y : List ℤ)
    (hy : y ∈ facesAt (cubeMaximal [0] [st]) k) :
    ∀ e ∈ y, 0 ≤ e ∧ e ≤ st := by
  rcases mem_facesAt.1 hy with ⟨s, hs, hsub, -⟩
  intro e he
  have hes : e ∈ s := ((pysort_perm s).mem_iff).1 (hsub.subset he)
  rw [cubeMaximal1_base] at hs
  simp only [List.mem_cons, List.not_mem_nil, or_false] at hs
  rcases hs with rfl
  simp at hes
  omega

/-! ### Faces containing the top corner are not claimed by neighbors -/

theorem not_mem_uni3_of_top (s0 s1 : ℤ) (h1 : 2 ≤ s1) (h0 : 2 * s1 ≤ s0) (i : ℕ)
    (hi : i < 4) (x : List ℤ) (hx : (s0 + s1 + 1) ∈ x) :
    x ∉ (joinComplexes
      [cube_with_strides_center [0, 0, -1] [s0, s1, 1],
       cube_with_strides_center [0, -1, 0] [s0, s1, 1],
       cube_with_strides_center [0, -1, -1] [s0, s1, 1],
       cube_with_strides_center [-1, 0, 0] [s0, s1, 1],
       cube_with_strides_center [-1, 0, -1] [s0, s1, 1],
       cube_with_strides_center [-1, -1, 0] [s0, s1, 1],
       cube_with_strides_center [-1, -1, -1] [s0, s1, 1]]).getD i ∅ := by
  rw [mem_uni3 s0 s1 i hi]
  rintro ⟨t, ht, y, hy, rfl⟩
  obtain ⟨e, he, hev⟩ := List.mem_map.1 hx
  have hb := base3_bounds s0 s1 h1 h0 (i + 1) y hy e he
  simp only [List.mem_cons, List.not_mem_nil, or_false] at ht
  omega

theorem not_mem_uni2_of_top (p q : ℤ) (hq : 1 ≤ q) (hp : 2 * q ≤ p) (i : ℕ)
    (hi : i < 3) (x : List ℤ) (hx : (p + q) ∈ x) :
    x ∉ (joinComplexes
      [cube_with_strides_center [0, -1] [p, q],
       cube_with_strides_center [-1, 0] [p, q],
       cube_with_strides_center [-1, -1] [p, q]]).getD i ∅ := by
  rw [mem_uni2 p q i hi]
  rintro ⟨t, ht, y, hy, rfl⟩
  obtain ⟨e, he, hev⟩ := List.mem_map.1 hx
  have hb := base2_bounds p q hq hp (i + 1) y hy e he
  simp only [List.mem_cons, List.not_mem_nil, or_false] at ht
  omega

/-! ### The unique-face templates, explicitly -/

theorem interiorTemplate_four (s0 s1 : ℤ) (h1 : 2 ≤ s1) (h0 : 2 * s1 ≤ s0) :
    interiorTemplate [s0, s1, 1] 4 =
      {[0, s1, s0 + s1, s0 + s1 + 1], [0, s1, s1 + 1, s0 + s1 + 1],
       [0, 1, s0 + 1, s0 + s1 + 1], [0, s0, s0 + 1, s0 + s1 + 1],
       [0, 1, s1 + 1, s0 + s1 + 1], [0, s0, s0 + s1, s0 + s1 + 1]} := by
  ext x
  simp only [interiorTemplate, templateAt]
  rw [Finset.mem_sdiff, show (4 : ℕ) - 1 = 3 from rfl, cube3_getD 0 0 0 s0 s1 1 3 (by omega),
    show (3 : ℕ) + 1 = 4 from rfl, mem_base3_four s0 s1 h1 h0]
  constructor
  · rintro ⟨hc, -⟩
    simpa using hc
  · intro hx
    simp only [Finset.mem_insert, Finset.mem_singleton] at hx
    refine ⟨by simpa using hx, not_mem_uni3_of_top s0 s1 h1 h0 3 (by omega) x ?_⟩
    rcases hx with rfl | rfl | rfl | rfl | rfl | rfl <;> simp

theorem interiorTemplate_three (s0 s1 : ℤ) (h1 : 2 ≤ s1) (h0 : 2 * s1 ≤ s0) :
    interiorTemplate [s0, s1, 1] 3 =
      {[0, 1, s0 + s1 + 1], [0, s1, s0 + s1 + 1], [0, s1 + 1, s0 + s1 + 1],
       [0, s0, s0 + s1 + 1], [0, s0 + 1, s0 + s1 + 1], [0, s0 + s1, s0 + s1 + 1],
       [1, s0 + 1, s0 + s1 + 1], [1, s1 + 1, s0 + s1 + 1], [s1, s1 + 1, s0 + s1 + 1],
       [s1, s0 + s1, s0 + s1 + 1], [s0, s0 + 1, s0 + s1 + 1],
       [s0, s0 + s1, s0 + s1 + 1]} := by
  ext x
  simp only [interiorTemplate, templateAt]
  rw [Finset.mem_sdiff, show (3 : ℕ) - 1 = 2 from rfl, cube3_getD 0 0 0 s0 s1 1 2 (by omega),
    show (2 : ℕ) + 1 = 3 from rfl, mem_base3_three s0 s1 h1 h0]
  constructor
  · rintro ⟨hc, hu⟩
    rcases hc with rfl | rfl | rfl | rfl | rfl | rfl | rfl | rfl | rfl | rfl | rfl | rfl |
      rfl | rfl | rfl | rfl | rfl | rfl
    · exfalso
      apply hu
      rw [mem_uni3 s0 s1 2 (by omega)]
      refine ⟨-1, by simp, [1, s1 + 1, s0 + s1 + 1], ?_, ?_⟩
      · rw [show (2 : ℕ) + 1 = 3 from rfl, mem_base3_three s0 s1 h1 h0]
        simp
      · simp
        try omega
    · exfalso
      apply hu
      rw [mem_uni3 s0 s1 2 (by omega)]
      refine ⟨-s0, by simp, [s0, s0 + s1, s0 + s1 + 1], ?_, ?_⟩
      · rw [show (2 : ℕ) + 1 = 3 from rfl, mem_base3_three s0 s1 h1 h0]
        simp
      · simp
        try omega
    · exfalso
      apply hu
      rw [mem_uni3 s0 s1 2 (by omega)]
      refine ⟨-s1, by simp, [s1, s1 + 1, s0 + s1 + 1], ?_, ?_⟩
      · rw [show (2 : ℕ) + 1 = 3 from rfl, mem_base3_three s0 s1 h1 h0]
        simp
      · simp
        try omega
    · exfalso
      apply hu
      rw [mem_uni3 s0 s1 2 (by omega)]
      refine ⟨-s1, by simp, [s1, s0 + s1, s0 + s1 + 1], ?_, ?_⟩
      · rw [show (2 : ℕ) + 1 = 3 from rfl, mem_base3_three s0 s1 h1 h0]
        simp
      · simp
        try omega
    · exfalso
      apply hu
      rw [mem_uni3 s0 s1 2 (by omega)]
      refine ⟨-s0, by simp, [s0, s0 + 1, s0 + s1 + 1], ?_, ?_⟩
      · rw [show (2 : ℕ) + 1 = 3 from rfl, mem_base3_three s0 s1 h1 h0]
        simp
      · simp
        try omega
    · exfalso
      apply hu
      rw [mem_uni3 s0 s1 2 (by omega)]
      refine ⟨-1, by simp, [1, s0 + 1, s0 + s1 + 1], ?_, ?_⟩
      · rw [show (2 : ℕ) + 1 = 3 from rfl, mem_base3_three s0 s1 h1 h0]
        simp
      · simp
        try omega
    all_goals simp
  · intro hx
    simp only [Finset.mem_insert, Finset.mem_singleton] at hx
    refine ⟨?_, not_mem_uni3_of_top s0 s1 h1 h0 2 (by omega) x ?_⟩
    · rcases hx with rfl | rfl | rfl | rfl | rfl | rfl | rfl | rfl | rfl | rfl | rfl | rfl <;>
        simp
    · rcases hx with rfl | rfl | rfl | rfl | rfl | rfl | rfl | rfl | rfl | rfl | rfl | rfl <;>
        simp

theorem interiorTemplate_two (s0 s1 : ℤ) (h1 : 2 ≤ s1) (h0 : 2 * s1 ≤ s0) :
    interiorTemplate [s0, s1, 1] 2 =
      {[0, s0 + s1 + 1], [1, s0 + s1 + 1], [s1, s0 + s1 + 1], [s1 + 1, s0 + s1 + 1],
       [s0, s0 + s1 + 1], [s0 + 1, s0 + s1 + 1], [s0 + s1, s0 + s1 + 1]} := by
  ext x
  simp only [interiorTemplate, templateAt]
  rw [Finset.mem_sdiff, show (2 : ℕ) - 1 = 1 from rfl, cube3_getD 0 0 0 s0 s1 1 1 (by omega),
    show (1 : ℕ) + 1 = 2 from rfl, mem_base3_two s0 s1 h1 h0]
  constructor
  · rintro ⟨hc, hu⟩
    rcases hc with rfl | rfl | rfl | rfl | rfl | rfl | rfl | rfl | rfl | rfl | rfl | rfl |
      rfl | rfl | rfl | rfl | rfl | rfl | rfl
    · exfalso
      apply hu
      rw [mem_uni3 s0 s1 1 (by omega)]
      refine ⟨-s0 - s1, by simp, [s0 + s1, s0 + s1 + 1], ?_, ?_⟩
      · rw [show (1 : ℕ) + 1 = 2 from rfl, mem_base3_two s0 s1 h1 h0]
        simp
      · simp
        try omega
    · exfalso
      apply hu
      rw [mem_uni3 s0 s1 1 (by omega)]
      refine ⟨-s0 - 1, by simp, [s0 + 1, s0 + s1 + 1], ?_, ?_⟩
      · rw [show (1 : ℕ) + 1 = 2 from rfl, mem_base3_two s0 s1 h1 h0]
        simp
      · simp
        try omega
    · exfalso
      apply hu
      rw [mem_uni3 s0 s1 1 (by omega)]
      refine ⟨-s0, by simp, [s0, s0 + s1 + 1], ?_, ?_⟩
      · rw [show (1 : ℕ) + 1 = 2 from rfl, mem_base3_two s0 s1 h1 h0]
        simp
      · simp
        try omega
    · exfalso
      apply hu
      rw [mem_uni3 s0 s1 1 (by omega)]
      refine ⟨-s1 - 1, by simp, [s1 + 1, s0 + s1 + 1], ?_, ?_⟩
      · rw [show (1 : ℕ) + 1 = 2 from rfl, mem_base3_two s0 s1 h1 h0]
        simp
      · simp
        try omega
    · exfalso
      apply hu
      rw [mem_uni3 s0 s1 1 (by omega)]
      refine ⟨-s1, by simp, [s1, s0 + s1 + 1], ?_, ?_⟩
      · rw [show (1 : ℕ) + 1 = 2 from rfl, mem_base3_two s0 s1 h1 h0]
        simp
      · simp
        try omega
    · exfalso
      apply hu
      rw [mem_uni3 s0 s1 1 (by omega)]
      refine ⟨-1, by simp, [1, s0 + s1 + 1], ?_, ?_⟩
      · rw [show (1 : ℕ) + 1 = 2 from rfl, mem_base3_two s0 s1 h1 h0]
        simp
      · simp
        try omega
    · simp
    · exfalso
      apply hu
      rw [mem_uni3 s0 s1 1 (by omega)]
      refine ⟨-s1, by simp, [s1 + 1, s0 + s1 + 1], ?_, ?_⟩
      · rw [show (1 : ℕ) + 1 = 2 from rfl, mem_base3_two s0 s1 h1 h0]
        simp
      · simp
        try omega
    · exfalso
      apply hu
      rw [mem_uni3 s0 s1 1 (by omega)]
      refine ⟨-s0, by simp, [s0 + 1, s0 + s1 + 1], ?_, ?_⟩
      · rw [show (1 : ℕ) + 1 = 2 from rfl, mem_base3_two s0 s1 h1 h0]
        simp
      · simp
        try omega
    · exfalso
      apply hu
      rw [mem_uni3 s0 s1 1 (by omega)]
      refine ⟨-s0, by simp, [s0 + s1, s0 + s1 + 1], ?_, ?_⟩
      · rw [show (1 : ℕ) + 1 = 2 from rfl, mem_base3_two s0 s1 h1 h0]
        simp
      · simp
        try omega
    · exfalso
      apply hu
      rw [mem_uni3 s0 s1 1 (by omega)]
      refine ⟨-1, by simp, [s1 + 1, s0 + s1 + 1], ?_, ?_⟩
      · rw [show (1 : ℕ) + 1 = 2 from rfl, mem_base3_two s0 s1 h1 h0]
        simp
      · simp
        try omega
    · exfalso
      apply hu
      rw [mem_uni3 s0 s1 1 (by omega)]
      refine ⟨-s1, by simp, [s0 + s1, s0 + s1 + 1], ?_, ?_⟩
      · rw [show (1 : ℕ) + 1 = 2 from rfl, mem_base3_two s0 s1 h1 h0]
        simp
      · simp
        try omega
    · exfalso
      apply hu
      rw [mem_uni3 s0 s1 1 (by omega)]
      refine ⟨-1, by simp, [s0 + 1, s0 + s1 + 1], ?_, ?_⟩
      · rw [show (1 : ℕ) + 1 = 2 from rfl, mem_base3_two s0 s1 h1 h0]
        simp
      · simp
        try omega
    all_goals simp
  · intro hx
    simp only [Finset.mem_insert, Finset.mem_singleton] at hx
    refine ⟨?_, not_mem_uni3_of_top s0 s1 h1 h0 1 (by omega) x ?_⟩
    · rcases hx with rfl | rfl | rfl | rfl | rfl | rfl | rfl <;> simp
    · rcases hx with rfl | rfl | rfl | rfl | rfl | rfl | rfl <;> simp

theorem slabTemplate_three (p q : ℤ) (hq : 1 ≤ q) (hp : 2 * q ≤ p) :
    slabTemplate p q 3 = {[0, p, p + q], [0, q, p + q]} := by
  ext x
  simp only [slabTemplate, templateAt]
  rw [Finset.mem_sdiff, show (3 : ℕ) - 1 = 2 from rfl, cube2_getD 0 0 p q 2 (by omega),
    show (2 : ℕ) + 1 = 3 from rfl, mem_base2_three p q hq hp]
  constructor
  · rintro ⟨hc, -⟩
    simpa using hc
  · intro hx
    simp only [Finset.mem_insert, Finset.mem_singleton] at hx
    refine ⟨by simpa using hx, not_mem_uni2_of_top p q hq hp 2 (by omega) x ?_⟩
    rcases hx with rfl | rfl <;> simp

theorem slabTemplate_two (p q : ℤ) (hq : 1 ≤ q) (hp : 2 * q ≤ p) :
    slabTemplate p q 2 = {[0, p + q], [p, p + q], [q, p + q]} := by
  ext x
  simp only [slabTemplate, templateAt]
  rw [Finset.mem_sdiff, show (2 : ℕ) - 1 = 1 from rfl, cube2_getD 0 0 p q 1 (by omega),
    show (1 : ℕ) + 1 = 2 from rfl, mem_base2_two p q hq hp]
  constructor
  · rintro ⟨hc, hu⟩
    rcases hc with rfl | rfl | rfl | rfl | rfl
    · exfalso
      apply hu
      rw [mem_uni2 p q 1 (by omega)]
      refine ⟨-q, by simp, [q, p + q], ?_, ?_⟩
      · rw [show (1 : ℕ) + 1 = 2 from rfl, mem_base2_two p q hq hp]
        simp
      · simp
        try omega
    · exfalso
      apply hu
      rw [mem_uni2 p q 1 (by omega)]
      refine ⟨-p, by simp, [p, p + q], ?_, ?_⟩
      · rw [show (1 : ℕ) + 1 = 2 from rfl, mem_base2_two p q hq hp]
        simp
      · simp
        try omega
    all_goals simp
  · intro hx
    simp only [Finset.mem_insert, Finset.mem_singleton] at hx
    refine ⟨?_, not_mem_uni2_of_top p q hq hp 1 (by omega) x ?_⟩
    · rcases hx with rfl | rfl | rfl <;> simp
    · rcases hx with rfl | rfl | rfl <;> simp

theorem edgeTemplate_two (st : ℤ) (hst : 1 ≤ st) : edgeTemplate st 2 = {[0, st]} := by
  ext x
  simp only [edgeTemplate, templateAt]
  rw [Finset.mem_sdiff, show (2 : ℕ) - 1 = 1 from rfl, cube1_getD 0 st 1 (by omega),
    show (1 : ℕ) + 1 = 2 from rfl, mem_base1_two st hst]
  constructor
  · rintro ⟨rfl, -⟩
    simp
  · intro hx
    simp only [Finset.mem_singleton] at hx
    subst hx
    refine ⟨rfl, ?_⟩
    rw [mem_cubeShift1 (-1) st (-1) rfl 1 (by omega)]
    rintro ⟨y, hy, heq⟩
    rw [show (1 : ℕ) + 1 = 2 from rfl, mem_base1_two st hst] at hy
    subst hy
    simp at heq

/-! ### Template cardinalities -/

theorem interiorTemplate_four_card (s0 s1 : ℤ) (h1 : 2 ≤ s1) (h0 : 2 * s1 ≤ s0) :
    (interiorTemplate [s0, s1, 1] 4).card = 6 := by
  rw [interiorTemplate_four s0 s1 h1 h0,
    Finset.card_insert_of_not_mem (by simp; omega),
    Finset.card_insert_of_not_mem (by simp; omega),
    Finset.card_insert_of_not_mem (by simp; omega),
    Finset.card_insert_of_not_mem (by simp; omega),
    Finset.card_insert_of_not_mem (by simp; omega),
    Finset.card_singleton]

theorem interiorTemplate_three_card (s0 s1 : ℤ) (h1 : 2 ≤ s1) (h0 : 2 * s1 ≤ s0) :
    (interiorTemplate [s0, s1, 1] 3).card = 12 := by
  rw [interiorTemplate_three s0 s1 h1 h0,
    Finset.card_insert_of_not_mem (by simp; omega),
    Finset.card_insert_of_not_mem (by simp; omega),
    Finset.card_insert_of_not_mem (by simp; omega),
    Finset.card_insert_of_not_mem (by simp; omega),
    Finset.card_insert_of_not_mem (by simp; omega),
    Finset.card_insert_of_not_mem (by simp; omega),
    Finset.card_insert_of_not_mem (by simp; omega),
    Finset.card_insert_of_not_mem (by simp; omega),
    Finset.card_insert_of_not_mem (by simp; omega),
    Finset.card_insert_of_not_mem (by simp; omega),
    Finset.card_insert_of_not_mem (by simp; omega),
    Finset.card_singleton]

theorem interiorTemplate_two_card (s0 s1 : ℤ) (h1 : 2 ≤ s1) (h0 : 2 * s1 ≤ s0) :
    (interiorTemplate [s0, s1, 1] 2).card = 7 := by
  rw [interiorTemplate_two s0 s1 h1 h0,
    Finset.card_insert_of_not_mem (by simp; omega),
    Finset.card_insert_of_not_mem (by simp; omega),
    Finset.card_insert_of_not_mem (by simp; omega),
    Finset.card_insert_of_not_mem (by simp; omega),
    Finset.card_insert_of_not_mem (by simp; omega),
    Finset.card_insert_of_not_mem (by simp; omega),
    Finset.card_singleton]

theorem slabTemplate_three_card (p q : ℤ) (hq : 1 ≤ q) (hp : 2 * q ≤ p) :
    (slabTemplate p q 3).card = 2 := by
  rw [slabTemplate_three p q hq hp,
    Finset.card_insert_of_not_mem (by simp; omega), Finset.card_singleton]

theorem slabTemplate_two_card (p q : ℤ) (hq : 1 ≤ q) (hp : 2 * q ≤ p) :
    (slabTemplate p q 2).card = 3 := by
  rw [slabTemplate_two p q hq hp,
    Finset.card_insert_of_not_mem (by simp; omega),
    Finset.card_insert_of_not_mem (by simp; omega), Finset.card_singleton]

theorem edgeTemplate_two_card (st : ℤ) (hst : 1 ≤ st) :
    (edgeTemplate st 2).card = 1 := by
  rw [edgeTemplate_two st hst, Finset.card_singleton]

/-! ### Lengths of the streams -/

theorem length_flatMap_const {α β : Type} (l : List α) (f : α → List β) (c : ℕ)
    (h : ∀ x ∈ l, (f x).length = c) : (l.flatMap f).length = l.length * c := by
  induction l with
  | nil => simp
  | cons a t ih =>
      rw [List.flatMap_cons, List.length_append, h a (List.mem_cons_self _ _),
        ih (fun x hx => h x (List.mem_cons_of_mem _ hx)), List.length_cons]
      ring

theorem length_setList (tpl : Finset (List ℤ)) : (setList tpl).length = tpl.card :=
  Finset.length_sort _

theorem length_translateYields (tpl : Finset (List ℤ)) (positions : List ℤ) :
    (translateYields tpl positions).length = positions.length * tpl.card := by
  unfold translateYields
  rw [length_flatMap_const _ _ tpl.card
    (fun x _ => by rw [List.length_map, length_setList])]

theorem length_positions3 (s : List ℤ) (a b c : ℕ) :
    (positions3 s a b c).length = (a - 1) * ((b - 1) * (c - 1)) := by
  unfold positions3
  rw [length_flatMap_const _ _ ((b - 1) * (c - 1)) (fun x _ => ?_), List.length_range]
  rw [length_flatMap_const _ _ (c - 1) (fun y _ => by
    rw [List.length_map, List.length_range]), List.length_range]

theorem length_positions2 (p q : ℤ) (m n : ℕ) :
    (positions2 p q m n).length = (m - 1) * (n - 1) := by
  unfold positions2
  rw [length_flatMap_const _ _ (n - 1) (fun x _ => by
    rw [List.length_map, List.length_range]), List.length_range]

theorem length_positions1 (st : ℤ) (m : ℕ) :
    (positions1 st m).length = m - 1 := by
  unfold positions1
  rw [List.length_map, List.length_range]

/-! ### Decomposing the generators into strata -/

theorem interiorYields_guard (s : List ℤ) (a b c dim : ℕ) (h : 1 < dim ∧ dim ≤ 4) :
    interiorYields s a b c dim =
      translateYields (interiorTemplate s dim) (positions3 s a b c) := by
  rw [interiorYields, if_pos h]

theorem interiorYields_empty (s : List ℤ) (a b c dim : ℕ) (h : ¬(1 < dim ∧ dim ≤ 4)) :
    interiorYields s a b c dim = [] := by
  rw [interiorYields, if_neg h]

theorem slabYields_guard (p q : ℤ) (m n dim : ℕ) (h : 1 < dim ∧ dim ≤ 3) :
    slabYields p q m n dim =
      translateYields (slabTemplate p q dim) (positions2 p q m n) := by
  rw [slabYields, if_pos h]

theorem slabYields_empty (p q : ℤ) (m n dim : ℕ) (h : ¬(1 < dim ∧ dim ≤ 3)) :
    slabYields p q m n dim = [] := by
  rw [slabYields, if_neg h]

theorem edgeYields_guard (st : ℤ) (m dim : ℕ) (h : 1 < dim ∧ dim ≤ 2) :
    edgeYields st m dim = translateYields (edgeTemplate st dim) (positions1 st m) := by
  rw [edgeYields, if_pos h]

theorem edgeYields_empty (st : ℤ) (m dim : ℕ) (h : ¬(1 < dim ∧ dim ≤ 2)) :
    edgeYields st m dim = [] := by
  rw [edgeYields, if_neg h]

theorem decompose3d_parts (a b c dim : ℕ) :
    decompose3d a b c dim =
      interiorYields [((b * c : ℕ) : ℤ), ((c : ℕ) : ℤ), 1] a b c dim
        ++ slabYields ((b * c : ℕ) : ℤ) ((c : ℕ) : ℤ) a b dim
        ++ slabYields ((b * c : ℕ) : ℤ) 1 a c dim
        ++ slabYields ((c : ℕ) : ℤ) 1 b c dim
        ++ edgeYields ((b * c : ℕ) : ℤ) a dim
        ++ edgeYields ((c : ℕ) : ℤ) b dim
        ++ edgeYields 1 c dim
        ++ (if dim = 1 then (List.range (a * b * c)).map (fun i : ℕ => PyVal.int (i : ℤ))
            else []) := rfl

theorem decompose2d_parts (m n dim : ℕ) :
    decompose2d m n dim =
      slabYields ((n : ℕ) : ℤ) 1 m n dim
        ++ edgeYields ((n : ℕ) : ℤ) m dim
        ++ edgeYields 1 n dim
        ++ (if dim = 1 then (List.range (m * n)).map (fun i : ℕ => PyVal.int (i : ℤ))
            else []) := rfl

/-! ### Stream lengths per dimension -/

theorem strides3_facts (b c : ℕ) (hb : 2 ≤ b) (hc : 2 ≤ c) :
    2 ≤ ((c : ℕ) : ℤ) ∧ 2 * ((c : ℕ) : ℤ) ≤ ((b * c : ℕ) : ℤ) := by
  constructor
  · exact_mod_cast hc
  · push_cast
    have hb' : (2 : ℤ) ≤ (b : ℤ) := by exact_mod_cast hb
    have hc' : (0 : ℤ) ≤ (c : ℤ) := by positivity
    nlinarith

theorem length_decompose3d_four (a b c : ℕ) (hb : 2 ≤ b) (hc : 2 ≤ c) :
    (decompose3d a b c 4).length = (a - 1) * ((b - 1) * (c - 1)) * 6 := by
  obtain ⟨h1, h0⟩ := strides3_facts b c hb hc
  rw [decompose3d_parts]
  simp only [List.length_append]
  rw [interiorYields_guard _ _ _ _ _ (by omega), length_translateYields, length_positions3,
    interiorTemplate_four_card _ _ h1 h0,
    slabYields_empty _ _ _ _ _ (by omega), slabYields_empty _ _ _ _ _ (by omega),
    slabYields_empty _ _ _ _ _ (by omega), edgeYields_empty _ _ _ (by omega),
    edgeYields_empty _ _ _ (by omega), edgeYields_empty _ _ _ (by omega),
    if_neg (by omega)]
  simp

theorem length_decompose3d_three (a b c : ℕ) (hb : 2 ≤ b) (hc : 2 ≤ c) :
    (decompose3d a b c 3).length =
      (a - 1) * ((b - 1) * (c - 1)) * 12 + (a - 1) * (b - 1) * 2 +
        (a - 1) * (c - 1) * 2 + (b - 1) * (c - 1) * 2 := by
  obtain ⟨h1, h0⟩ := strides3_facts b c hb hc
  have hbc : (2 : ℤ) * 1 ≤ ((b * c : ℕ) : ℤ) := by
    push_cast
    have hb' : (2 : ℤ) ≤ (b : ℤ) := by exact_mod_cast hb
    have hc' : (1 : ℤ) ≤ (c : ℤ) := by exact_mod_cast le_trans (by omega) hc
    nlinarith
  rw [decompose3d_parts]
  simp only [List.length_append]
  rw [interiorYields_guard _ _ _ _ _ (by omega), length_translateYields, length_positions3,
    interiorTemplate_three_card _ _ h1 h0,
    slabYields_guard _ _ _ _ _ (by omega), length_translateYields, length_positions2,
    slabTemplate_three_card _ _ (by omega) h0,
    slabYields_guard _ _ _ _ _ (by omega), length_translateYields, length_positions2,
    slabTemplate_three_card _ _ (by omega) hbc,
    slabYields_guard _ _ _ _ _ (by omega), length_translateYields, length_positions2,
    slabTemplate_three_card _ _ (by omega) (by omega),
    edgeYields_empty _ _ _ (by omega), edgeYields_empty _ _ _ (by omega),
    edgeYields_empty _ _ _ (by omega), if_neg (by omega)]
  simp

theorem length_decompose3d_two (a b c : ℕ) (hb : 2 ≤ b) (hc : 2 ≤ c) :
    (decompose3d a b c 2).length =
      (a - 1) * ((b - 1) * (c - 1)) * 7 + (a - 1) * (b - 1) * 3 +
        (a - 1) * (c - 1) * 3 + (b - 1) * (c - 1) * 3 + ((a - 1) + ((b - 1) + (c - 1))) := by
  obtain ⟨h1, h0⟩ := strides3_facts b c hb hc
  have hbc : (2 : ℤ) * 1 ≤ ((b * c : ℕ) : ℤ) := by
    push_cast
    have hb' : (2 : ℤ) ≤ (b : ℤ) := by exact_mod_cast hb
    have hc' : (1 : ℤ) ≤ (c : ℤ) := by exact_mod_cast le_trans (by omega) hc
    nlinarith
  rw [decompose3d_parts]
  simp only [List.length_append]
  rw [interiorYields_guard _ _ _ _ _ (by omega), length_translateYields, length_positions3,
    interiorTemplate_two_card _ _ h1 h0,
    slabYields_guard _ _ _ _ _ (by omega), length_translateYields, length_positions2,
    slabTemplate_two_card _ _ (by omega) h0,
    slabYields_guard _ _ _ _ _ (by omega), length_translateYields, length_positions2,
    slabTemplate_two_card _ _ (by omega) hbc,
    slabYields_guard _ _ _ _ _ (by omega), length_translateYields, length_positions2,
    slabTemplate_two_card _ _ (by omega) (by omega),
    edgeYields_guard _ _ _ (by omega), length_translateYields, length_positions1,
    edgeTemplate_two_card _ (by omega),
    edgeYields_guard _ _ _ (by omega), length_translateYields, length_positions1,
    edgeTemplate_two_card _ (by omega),
    edgeYields_guard _ _ _ (by omega), length_translateYields, length_positions1,
    edgeTemplate_two_card _ (by omega), if_neg (by omega)]
  simp
  ring

theorem length_decompose3d_one (a b c : ℕ) : (decompose3d a b c 1).length = a * b * c := by
  rw [decompose3d_parts]
  simp only [List.length_append]
  rw [interiorYields_empty _ _ _ _ _ (by omega), slabYields_empty _ _ _ _ _ (by omega),
    slabYields_empty _ _ _ _ _ (by omega), slabYields_empty _ _ _ _ _ (by omega),
    edgeYields_empty _ _ _ (by omega), edgeYields_empty _ _ _ (by omega),
    edgeYields_empty _ _ _ (by omega)]
  simp

theorem length_decompose2d_three (m n : ℕ) (hn : 2 ≤ n) :
    (decompose2d m n 3).length = (m - 1) * (n - 1) * 2 := by
  rw [decompose2d_parts]
  simp only [List.length_append]
  rw [slabYields_guard _ _ _ _ _ (by omega), length_translateYields, length_positions2,
    slabTemplate_three_card _ _ (by omega) (by omega : 2 * 1 ≤ ((n : ℕ) : ℤ)),
    edgeYields_empty _ _ _ (by omega), edgeYields_empty _ _ _ (by omega), if_neg (by omega)]
  simp

theorem length_decompose2d_two (m n : ℕ) (hn : 2 ≤ n) :
    (decompose2d m n 2).length = (m - 1) * (n - 1) * 3 + ((m - 1) + (n - 1)) := by
  rw [decompose2d_parts]
  simp only [List.length_append]
  rw [slabYields_guard _ _ _ _ _ (by omega), length_translateYields, length_positions2,
    slabTemplate_two_card _ _ (by omega) (by omega : 2 * 1 ≤ ((n : ℕ) : ℤ)),
    edgeYields_guard _ _ _ (by omega), length_translateYields, length_positions1,
    edgeTemplate_two_card _ (by omega),
    edgeYields_guard _ _ _ (by omega), length_translateYields, length_positions1,
    edgeTemplate_two_card _ (by omega), if_neg (by omega)]
  simp
  ring

theorem length_decompose2d_one (m n : ℕ) : (decompose2d m n 1).length = m * n := by
  rw [decompose2d_parts]
  simp only [List.length_append]
  rw [slabYields_empty _ _ _ _ _ (by omega), edgeYields_empty _ _ _ (by omega),
    edgeYields_empty _ _ _ (by omega)]
  simp

/-! ### The Euler characteristic accumulators -/

theorem testEC3_ec (a b c : ℕ) (ha : 2 ≤ a) (hb : 2 ≤ b) (hc : 2 ≤ c) :
    (testEC3 a b c).2.2.2.2 = 1 := by
  obtain ⟨x, rfl⟩ := Nat.exists_eq_add_of_le ha
  obtain ⟨y, rfl⟩ := Nat.exists_eq_add_of_le hb
  obtain ⟨z, rfl⟩ := Nat.exists_eq_add_of_le hc
  simp only [testEC3]
  rw [length_decompose3d_four _ _ _ hb hc, length_decompose3d_three _ _ _ hb hc,
    length_decompose3d_two _ _ _ hb hc, length_decompose3d_one]
  simp only [show 2 + x - 1 = x + 1 from by omega, show 2 + y - 1 = y + 1 from by omega,
    show 2 + z - 1 = z + 1 from by omega]
  push_cast
  ring

theorem testEC2_ec (m n : ℕ) (hm : 2 ≤ m) (hn : 2 ≤ n) :
    (testEC2 m n).2.2.2 = 1 := by
  obtain ⟨x, rfl⟩ := Nat.exists_eq_add_of_le hm
  obtain ⟨y, rfl⟩ := Nat.exists_eq_add_of_le hn
  simp only [testEC2]
  rw [length_decompose2d_three _ _ hn, length_decompose2d_two _ _ hn,
    length_decompose2d_one]
  simp only [show 2 + x - 1 = x + 1 from by omega, show 2 + y - 1 = y + 1 from by omega]
  push_cast
  ring

/-! ### Assorted helpers for the claims -/

theorem list_toFinset_map {α β : Type} [DecidableEq α] [DecidableEq β] (f : α → β)
    (l : List α) : (l.map f).toFinset = l.toFinset.image f := by
  ext b
  simp

theorem setList_toFinset (tpl : Finset (List ℤ)) : (setList tpl).toFinset = tpl :=
  Finset.sort_toFinset _ _

theorem translateYields_single (tpl : Finset (List ℤ)) (n : ℤ) :
    translateYields tpl [n] =
      (setList tpl).map (fun l => PyVal.list (l.map (fun v => n + v))) := by
  simp [translateYields]

theorem joinComplexes_single (c : PyComplex) : joinComplexes [c] = c := by
  unfold joinComplexes
  apply List.ext_getElem
  · simp
  · intro i h1 h2
    simp only [List.getElem_map, List.getElem_range]
    simp only [List.foldl_cons, List.foldl_nil, Finset.empty_union]
    rw [List.getD_eq_getElem _ _ h2]

theorem decompose3d_one_eq (a b c : ℕ) :
    decompose3d a b c 1 = (List.range (a * b * c)).map (fun i : ℕ => PyVal.int (i : ℤ)) := by
  rw [decompose3d_parts, interiorYields_empty _ _ _ _ _ (by omega),
    slabYields_empty _ _ _ _ _ (by omega), slabYields_empty _ _ _ _ _ (by omega),
    slabYields_empty _ _ _ _ _ (by omega), edgeYields_empty _ _ _ (by omega),
    edgeYields_empty _ _ _ (by omega), edgeYields_empty _ _ _ (by omega)]
  simp

theorem decompose2d_one_eq (m n : ℕ) :
    decompose2d m n 1 = (List.range (m * n)).map (fun i : ℕ => PyVal.int (i : ℤ)) := by
  rw [decompose2d_parts, slabYields_empty _ _ _ _ _ (by omega),
    edgeYields_empty _ _ _ (by omega), edgeYields_empty _ _ _ (by omega)]
  simp

theorem mem_map_int_range (N : ℕ) (v : ℤ) :
    PyVal.int v ∈ (List.range N).map (fun i : ℕ => PyVal.int (i : ℤ)) ↔
      0 ≤ v ∧ v < (N : ℤ) := by
  rw [List.mem_map]
  constructor
  · rintro ⟨i, hi, heq⟩
    rw [List.mem_range] at hi
    cases heq
    constructor
    · positivity
    · exact_mod_cast hi
  · rintro ⟨h0, hN⟩
    refine ⟨v.toNat, ?_, by simp [Int.toNat_of_nonneg h0]⟩
    rw [List.mem_range]
    omega

theorem nodup_map_int_range (N : ℕ) :
    ((List.range N).map (fun i : ℕ => PyVal.int (i : ℤ))).Nodup := by
  refine (List.nodup_range N).map ?_
  intro i j h
  simp only [PyVal.int.injEq, Nat.cast_inj] at h
  exact h

/-! ### Claim theorems -/

/-- Claim C1: for every 3-d shape with all axis lengths at least 2, the
alternating-sign accumulation of test_EC3 (vertices +, edges -, triangles +,
tetrahedra -) equals 1, and likewise test_EC2 for 2-d shapes. -/
theorem claim_C1 :
    (∀ a b c : ℕ, 2 ≤ a → 2 ≤ b → 2 ≤ c → (testEC3 a b c).2.2.2.2 = 1) ∧
    (∀ m n : ℕ, 2 ≤ m → 2 ≤ n → (testEC2 m n).2.2.2 = 1) :=
  ⟨testEC3_ec, testEC2_ec⟩

/-- Witness for claim C1 at the concrete shapes (2,2,2) and (4,4). -/
theorem claim_C1_witness :
    ((2 : ℕ) ≤ 2 ∧ (testEC3 2 2 2).2.2.2.2 = 1) ∧
    ((2 : ℕ) ≤ 4 ∧ (testEC2 4 4).2.2.2 = 1) :=
  ⟨⟨by decide, claim_C1.1 2 2 2 (by decide) (by decide) (by decide)⟩,
   ⟨by decide, claim_C1.2 4 4 (by decide) (by decide)⟩⟩

/-- Claim C3: with dim = 1 the generators yield exactly the bare flattened
vertex indices 0 .. prod(shape)-1, each exactly once (for every shape: the
template strata contribute nothing at dim 1). -/
theorem claim_C3 :
    ∀ a b c m n : ℕ,
      decompose3d a b c 1 =
          (List.range (a * b * c)).map (fun i : ℕ => PyVal.int (i : ℤ)) ∧
      (decompose3d a b c 1).length = a * b * c ∧
      (decompose3d a b c 1).Nodup ∧
      (∀ v : ℤ, PyVal.int v ∈ decompose3d a b c 1 ↔ 0 ≤ v ∧ v < ((a * b * c : ℕ) : ℤ)) ∧
      decompose2d m n 1 = (List.range (m * n)).map (fun i : ℕ => PyVal.int (i : ℤ)) ∧
      (decompose2d m n 1).length = m * n ∧
      (decompose2d m n 1).Nodup ∧
      (∀ v : ℤ, PyVal.int v ∈ decompose2d m n 1 ↔ 0 ≤ v ∧ v < ((m * n : ℕ) : ℤ)) := by
  intro a b c m n
  refine ⟨decompose3d_one_eq a b c, length_decompose3d_one a b c, ?_, ?_,
    decompose2d_one_eq m n, length_decompose2d_one m n, ?_, ?_⟩
  · rw [decompose3d_one_eq]
    exact nodup_map_int_range _
  · intro v
    rw [decompose3d_one_eq]
    exact mem_map_int_range _ v
  · rw [decompose2d_one_eq]
    exact nodup_map_int_range _
  · intro v
    rw [decompose2d_one_eq]
    exact mem_map_int_range _ v

/-- Counterexample to claim C4: for d = 1 the source sets vertices =
[center[0], center[0]+strides[0]], so the corner at bit 0 is center[0]
itself and not (center[0] + 0) * strides[0]; at center [1], strides [2]
the code produces corner 1 while the claimed formula gives 2. -/
theorem claim_C4_counterexample :
    (cubeVertices [1] [2]).getD 0 0 = 1 ∧
      (cubeVertices [1] [2]).getD 0 0 ≠
        ∑ i ∈ Finset.range 1,
          (([1] : List ℤ).getD i 0 + (((0 / 2 ^ i) % 2 : ℕ) : ℤ)) *
            ([2] : List ℤ).getD i 0 := by
  constructor
  · rfl
  · decide

/-- Claim C4 as amended: cube_with_strides_center enumerates exactly 2^d
corners in binary-counting order with the axis-0 bit fastest; for d = 2 and
d = 3 the corner at position m is Σ_i (center[i] + bit_i(m)) * strides[i],
while for d = 1 the two corners are center[0] and center[0] + strides[0]
(the center is not multiplied by the stride). -/
theorem claim_C4_amended :
    ∀ center strides : List ℤ, strides.length = center.length →
      1 ≤ center.length → center.length ≤ 3 →
      (cubeVertices center strides).length = 2 ^ center.length ∧
      (2 ≤ center.length →
        ∀ m, m < 2 ^ center.length →
          (cubeVertices center strides).getD m 0 =
            ∑ i ∈ Finset.range center.length,
              (center.getD i 0 + (((m / 2 ^ i) % 2 : ℕ) : ℤ)) * strides.getD i 0) ∧
      (center.length = 1 →
        cubeVertices center strides =
          [center.getD 0 0, center.getD 0 0 + strides.getD 0 0]) := by
  intro center strides hlen h1 h3
  rcases center with _ | ⟨c0, center⟩
  · simp at h1
  rcases center with _ | ⟨c1, center⟩
  · rcases strides with _ | ⟨s0, strides⟩
    · simp at hlen
    rcases strides with _ | ⟨s1, strides⟩
    · exact ⟨rfl, by intro h2; simp at h2, fun _ => rfl⟩
    · simp at hlen
  rcases center with _ | ⟨c2, center⟩
  · rcases strides with _ | ⟨s0, strides⟩
    · simp at hlen
    rcases strides with _ | ⟨s1, strides⟩
    · simp at hlen
    rcases strides with _ | ⟨s2, strides⟩
    · refine ⟨rfl, ?_, by simp⟩
      intro h2 m hm
      have hm4 : m < 4 := by simpa using hm
      interval_cases m <;> (simp [cubeVertices, Finset.sum_range_succ]; try ring)
    · simp at hlen
  rcases center with _ | ⟨c3, center⟩
  · rcases strides with _ | ⟨s0, strides⟩
    · simp at hlen
    rcases strides with _ | ⟨s1, strides⟩
    · simp at hlen
    rcases strides with _ | ⟨s2, strides⟩
    · simp at hlen
    rcases strides with _ | ⟨s3, strides⟩
    · refine ⟨rfl, ?_, by simp⟩
      intro h2 m hm
      have hm8 : m < 8 := by simpa using hm
      interval_cases m <;> (simp [cubeVertices, Finset.sum_range_succ]; try ring)
    · simp at hlen
  · simp at h3

/-- Witness for the amended claim C4 at d = 3, center (-1,0,-1),
strides (4,2,1). -/
theorem claim_C4_amended_witness :
    ([(4 : ℤ), 2, 1] : List ℤ).length = ([(-1 : ℤ), 0, -1] : List ℤ).length ∧
    (cubeVertices [-1, 0, -1] [4, 2, 1]).length = 2 ^ (3 : ℕ) ∧
    (cubeVertices [-1, 0, -1] [4, 2, 1]).getD 5 0 =
      ∑ i ∈ Finset.range 3,
        (([(-1 : ℤ), 0, -1] : List ℤ).getD i 0 + (((5 / 2 ^ i) % 2 : ℕ) : ℤ)) *
          ([(4 : ℤ), 2, 1] : List ℤ).getD i 0 := by
  refine ⟨rfl, ?_, ?_⟩
  · exact (claim_C4_amended [-1, 0, -1] [4, 2, 1] rfl (by decide) (by decide)).1
  · exact (claim_C4_amended [-1, 0, -1] [4, 2, 1] rfl (by decide) (by decide)).2.1
      (by decide) 5 (by decide)

/-- Claim C6: join_complexes applied to a single complex returns it
unchanged, and in general every dimension of the result is the set union of
the inputs' sets at that dimension, a dimension absent from an input
contributing nothing (getD gives the empty set beyond an input's keys). -/
theorem claim_C6 :
    (∀ c : PyComplex, joinComplexes [c] = c) ∧
    (∀ cs : List PyComplex, ∀ i : ℕ, ∀ x : List ℤ,
      x ∈ (joinComplexes cs).getD i ∅ ↔ ∃ c ∈ cs, x ∈ c.getD i ∅) :=
  ⟨joinComplexes_single, mem_joinComplexes_getD⟩

/-- Claim C7: in the output of complex() on the default 6-tetrahedra cube
template, every (k-1)-element subset of a stored dimension-k face is present
in the dimension-(k-1) set, 1-element subsets being stored as bare vertex
indices (pyval). -/
theorem claim_C7 :
    (∀ f ∈ facesAt defaultMaximal 4, ∀ g ∈ f.sublistsLen 3,
      pyval g ∈ pyFacesAt defaultMaximal 3) ∧
    (∀ f ∈ facesAt defaultMaximal 3, ∀ g ∈ f.sublistsLen 2,
      pyval g ∈ pyFacesAt defaultMaximal 2) ∧
    (∀ f ∈ facesAt defaultMaximal 2, ∀ g ∈ f.sublistsLen 1,
      pyval g ∈ pyFacesAt defaultMaximal 1) := by
  refine ⟨by decide, by decide, by decide⟩

/-- Claim C8: a requested dim outside the supported range (outside 1..4 for
decompose3d, outside 1..3 for decompose2d) yields the empty stream rather
than an error. -/
theorem claim_C8 :
    ∀ a b c m n dim : ℕ,
      ((dim = 0 ∨ 5 ≤ dim) → decompose3d a b c dim = []) ∧
      ((dim = 0 ∨ 4 ≤ dim) → decompose2d m n dim = []) := by
  intro a b c m n dim
  constructor
  · intro h
    rw [decompose3d_parts, interiorYields_empty _ _ _ _ _ (by omega),
      slabYields_empty _ _ _ _ _ (by omega), slabYields_empty _ _ _ _ _ (by omega),
      slabYields_empty _ _ _ _ _ (by omega), edgeYields_empty _ _ _ (by omega),
      edgeYields_empty _ _ _ (by omega), edgeYields_empty _ _ _ (by omega),
      if_neg (by omega)]
    simp
  · intro h
    rw [decompose2d_parts, slabYields_empty _ _ _ _ _ (by omega),
      edgeYields_empty _ _ _ (by omega), edgeYields_empty _ _ _ (by omega),
      if_neg (by omega)]
    simp

/-- Witness for claim C8 at dim = 0 and dim = 5. -/
theorem claim_C8_witness :
    (((0 : ℕ) = 0 ∨ 5 ≤ 0) ∧ decompose3d 2 2 2 0 = []) ∧
    (((5 : ℕ) = 0 ∨ 5 ≤ 5) ∧ decompose2d 3 3 5 = []) :=
  ⟨⟨Or.inl rfl, (claim_C8 2 2 2 3 3 0).1 (Or.inl rfl)⟩,
   ⟨Or.inr (by decide), (claim_C8 2 2 2 3 3 5).2 (Or.inr (by decide))⟩⟩

/-- Witness for claim C7 at the stored tetrahedron [0,2,3,7] and its
subset [0,2,3]. -/
theorem claim_C7_witness :
    (([0, 2, 3, 7] : List ℤ) ∈ facesAt defaultMaximal 4 ∧
      ([0, 2, 3] : List ℤ) ∈ ([0, 2, 3, 7] : List ℤ).sublistsLen 3) ∧
    pyval [0, 2, 3] ∈ pyFacesAt defaultMaximal 3 :=
  ⟨⟨by decide, by decide⟩, claim_C7.1 [0, 2, 3, 7] (by decide) [0, 2, 3] (by decide)⟩

/-- Claim C5: decompose3d on shape (2,2,2) with dim = 4 yields exactly the 6
tetrahedra of the unmodified default cube template instantiated at base
index 0 (the cube at the origin with strides (4,2,1)); the slab and edge
strata contribute nothing at that dimension. -/
theorem claim_C5 :
    (decompose3d 2 2 2 4).length = 6 ∧
    decompose3d 2 2 2 4 = interiorYields (strides3 2 2 2) 2 2 2 4 ∧
    (decompose3d 2 2 2 4).toFinset =
      ((cube_with_strides_center [0, 0, 0] (strides3 2 2 2)).getD 3 ∅).image PyVal.list ∧
    (decompose3d 2 2 2 4).toFinset =
      {PyVal.list [0, 1, 3, 7], PyVal.list [0, 1, 5, 7], PyVal.list [0, 2, 3, 7],
       PyVal.list [0, 2, 6, 7], PyVal.list [0, 4, 5, 7], PyVal.list [0, 4, 6, 7]} := by
  have hlen : (decompose3d 2 2 2 4).length = 6 := by
    rw [length_decompose3d_four 2 2 2 (by omega) (by omega)]
  have hint : decompose3d 2 2 2 4 = interiorYields (strides3 2 2 2) 2 2 2 4 := by
    rw [decompose3d_parts, slabYields_empty _ _ _ _ _ (by omega),
      slabYields_empty _ _ _ _ _ (by omega), slabYields_empty _ _ _ _ _ (by omega),
      edgeYields_empty _ _ _ (by omega), edgeYields_empty _ _ _ (by omega),
      edgeYields_empty _ _ _ (by omega), if_neg (by omega)]
    simp
    rfl
  have htpl : (decompose3d 2 2 2 4).toFinset =
      ((cube_with_strides_center [0, 0, 0] (strides3 2 2 2)).getD 3 ∅).image PyVal.list := by
    obtain ⟨h1, h0⟩ := strides3_facts 2 2 (by omega) (by omega)
    rw [hint, interiorYields_guard _ _ _ _ _ (by omega),
      show positions3 (strides3 2 2 2) 2 2 2 = [(0 : ℤ)] from by decide,
      translateYields_single, list_toFinset_map, setList_toFinset,
      show strides3 2 2 2 = [((2 * 2 : ℕ) : ℤ), ((2 : ℕ) : ℤ), 1] from rfl,
      cube3_getD 0 0 0 _ _ _ 3 (by omega), show (3 : ℕ) + 1 = 4 from rfl]
    simp only [zero_add, List.map_id']
    congr 1
  exact ⟨hlen, hint, htpl, by rw [htpl]; decide⟩

/-! ### Digit arithmetic for flattened indices -/

theorem digits2_inj (B x1 r1 x2 r2 : ℕ) (hr1 : r1 < B) (hr2 : r2 < B)
    (h : x1 * B + r1 = x2 * B + r2) : x1 = x2 ∧ r1 = r2 := by
  have hr : r1 = r2 := by
    have e1 : (B * x1 + r1) % B = (B * x2 + r2) % B := by
      rw [mul_comm B x1, mul_comm B x2, h]
    rwa [Nat.mul_add_mod, Nat.mul_add_mod, Nat.mod_eq_of_lt hr1, Nat.mod_eq_of_lt hr2] at e1
  subst hr
  have hx : x1 * B = x2 * B := Nat.add_right_cancel h
  exact ⟨Nat.eq_of_mul_eq_mul_right (by omega) hx, rfl⟩

theorem digits3_inj (b c x1 y1 z1 x2 y2 z2 : ℕ) (hy1 : y1 < b) (hz1 : z1 < c)
    (hy2 : y2 < b) (hz2 : z2 < c)
    (h : x1 * (b * c) + y1 * c + z1 = x2 * (b * c) + y2 * c + z2) :
    x1 = x2 ∧ y1 = y2 ∧ z1 = z2 := by
  rw [show x1 * (b * c) + y1 * c + z1 = (x1 * b + y1) * c + z1 from by ring,
    show x2 * (b * c) + y2 * c + z2 = (x2 * b + y2) * c + z2 from by ring] at h
  obtain ⟨hxy, hz⟩ := digits2_inj c (x1 * b + y1) z1 (x2 * b + y2) z2 hz1 hz2 h
  obtain ⟨hx, hy⟩ := digits2_inj b x1 y1 x2 y2 hy1 hy2 hxy
  exact ⟨hx, hy, hz⟩

theorem digits3_bound (a b c x y z : ℕ) (hx : x < a) (hy : y < b) (hz : z < c) :
    x * (b * c) + y * c + z < a * b * c := by
  calc x * (b * c) + y * c + z < x * (b * c) + y * c + c := Nat.add_lt_add_left hz _
    _ = x * (b * c) + (y + 1) * c := by ring
    _ ≤ x * (b * c) + b * c := Nat.add_le_add_left (Nat.mul_le_mul (by omega) (le_refl c)) _
    _ = (x + 1) * (b * c) := by ring
    _ ≤ a * (b * c) := Nat.mul_le_mul (by omega) (le_refl (b * c))
    _ = a * b * c := by ring

theorem digits2_bound (m n x y : ℕ) (hx : x < m) (hy : y < n) : x * n + y < m * n := by
  calc x * n + y < x * n + n := Nat.add_lt_add_left hy _
    _ = (x + 1) * n := by ring
    _ ≤ m * n := Nat.mul_le_mul (by omega) (le_refl n)

/-! ### Structure of a translated stream -/

theorem mem_setList {tpl : Finset (List ℤ)} {y : List ℤ} : y ∈ setList tpl ↔ y ∈ tpl :=
  Finset.mem_sort (· ≤ ·)

theorem mem_translateYields (tpl : Finset (List ℤ)) (P : List ℤ) (v : PyVal) :
    v ∈ translateYields tpl P ↔
      ∃ n ∈ P, ∃ y ∈ tpl, v = PyVal.list (y.map (fun w => n + w)) := by
  rw [translateYields, List.mem_flatMap]
  constructor
  · rintro ⟨n, hn, hv⟩
    rw [List.mem_map] at hv
    obtain ⟨y, hy, rfl⟩ := hv
    exact ⟨n, hn, y, mem_setList.1 hy, rfl⟩
  · rintro ⟨n, hn, y, hy, rfl⟩
    exact ⟨n, hn, List.mem_map.2 ⟨y, mem_setList.2 hy, rfl⟩⟩

theorem nodup_translateYields (tpl : Finset (List ℤ)) (P : List ℤ) (TOP : ℤ)
    (hP : P.Nodup) (htop : ∀ y ∈ tpl, y.getLast? = some TOP) :
    (translateYields tpl P).Nodup := by
  rw [translateYields, List.nodup_flatMap]
  constructor
  · intro n hn
    refine List.Nodup.map_on ?_ (Finset.sort_nodup _ _)
    intro y1 h1 y2 h2 heq
    simp only [PyVal.list.injEq] at heq
    exact List.map_injective_iff.2 (fun u w huw => by omega) heq
  · refine hP.imp ?_
    intro n1 n2 hne v hv1 hv2
    simp only [List.mem_map] at hv1 hv2
    obtain ⟨y1, hy1, rfl⟩ := hv1
    obtain ⟨y2, hy2, he⟩ := hv2
    simp only [PyVal.list.injEq] at he
    have t1 := htop y1 (mem_setList.1 hy1)
    have t2 := htop y2 (mem_setList.1 hy2)
    have e1 : (y1.map (fun w => n1 + w)).getLast? = some (n1 + TOP) := by
      rw [List.getLast?_map, t1]; rfl
    have e2 : (y2.map (fun w => n2 + w)).getLast? = some (n2 + TOP) := by
      rw [List.getLast?_map, t2]; rfl
    rw [he, e1] at e2
    exact hne (by have := Option.some.inj e2; omega)

theorem translateYields_shape (tpl : Finset (List ℤ)) (P : List ℤ) (dim : ℕ) (TOP : ℤ)
    (hshape : ∀ y ∈ tpl, y.length = dim ∧ List.Sorted (· < ·) y ∧
      y.getLast? = some TOP ∧ ∀ e ∈ y, 0 ≤ e ∧ e ≤ TOP) :
    ∀ v ∈ translateYields tpl P, ∃ n ∈ P, ∃ l, v = PyVal.list l ∧ l.length = dim ∧
      List.Sorted (· < ·) l ∧ pyLast v = some (n + TOP) ∧
      ∀ e ∈ l, n ≤ e ∧ e ≤ n + TOP := by
  intro v hv
  rw [mem_translateYields] at hv
  obtain ⟨n, hn, y, hy, rfl⟩ := hv
  obtain ⟨hlen, hsort, hlast, hbnd⟩ := hshape y hy
  refine ⟨n, hn, y.map (fun w => n + w), rfl, by simp [hlen], ?_, ?_, ?_⟩
  · exact List.Pairwise.map _ (fun u w huw => by omega) hsort
  · show (y.map (fun w => n + w)).getLast? = some (n + TOP)
    rw [List.getLast?_map, hlast]
    rfl
  · intro e he
    rw [List.mem_map] at he
    obtain ⟨w, hw, rfl⟩ := he
    have := hbnd w hw
    omega

/-! ### Shape facts of the three templates -/

theorem interiorTemplate_shape (s0 s1 : ℤ) (h1 : 2 ≤ s1) (h0 : 2 * s1 ≤ s0) (dim : ℕ)
    (hdim : 1 < dim ∧ dim ≤ 4) :
    ∀ y ∈ interiorTemplate [s0, s1, 1] dim, y.length = dim ∧ List.Sorted (· < ·) y ∧
      y.getLast? = some (s0 + s1 + 1) ∧ ∀ e ∈ y, 0 ≤ e ∧ e ≤ s0 + s1 + 1 := by
  obtain ⟨hd1, hd2⟩ := hdim
  interval_cases dim
  · rw [interiorTemplate_two s0 s1 h1 h0]
    intro y hy
    simp only [Finset.mem_insert, Finset.mem_singleton] at hy
    rcases hy with rfl | rfl | rfl | rfl | rfl | rfl | rfl <;>
      exact ⟨rfl, by simp [List.sorted_cons]; try omega, rfl, by
        intro e he
        simp only [List.mem_cons, List.not_mem_nil, or_false] at he
        omega⟩
  · rw [interiorTemplate_three s0 s1 h1 h0]
    intro y hy
    simp only [Finset.mem_insert, Finset.mem_singleton] at hy
    rcases hy with rfl | rfl | rfl | rfl | rfl | rfl | rfl | rfl | rfl | rfl | rfl | rfl <;>
      exact ⟨rfl, by simp [List.sorted_cons]; try omega, rfl, by
        intro e he
        simp only [List.mem_cons, List.not_mem_nil, or_false] at he
        omega⟩
  · rw [interiorTemplate_four s0 s1 h1 h0]
    intro y hy
    simp only [Finset.mem_insert, Finset.mem_singleton] at hy
    rcases hy with rfl | rfl | rfl | rfl | rfl | rfl <;>
      exact ⟨rfl, by simp [List.sorted_cons]; try omega, rfl, by
        intro e he
        simp only [List.mem_cons, List.not_mem_nil, or_false] at he
        omega⟩

theorem slabTemplate_shape (p q : ℤ) (hq : 1 ≤ q) (hp : 2 * q ≤ p) (dim : ℕ)
    (hdim : 1 < dim ∧ dim ≤ 3) :
    ∀ y ∈ slabTemplate p q dim, y.length = dim ∧ List.Sorted (· < ·) y ∧
      y.getLast? = some (p + q) ∧ ∀ e ∈ y, 0 ≤ e ∧ e ≤ p + q := by
  obtain ⟨hd1, hd2⟩ := hdim
  interval_cases dim
  · rw [slabTemplate_two p q hq hp]
    intro y hy
    simp only [Finset.mem_insert, Finset.mem_singleton] at hy
    rcases hy with rfl | rfl | rfl <;>
      exact ⟨rfl, by simp [List.sorted_cons]; try omega, rfl, by
        intro e he
        simp only [List.mem_cons, List.not_mem_nil, or_false] at he
        omega⟩
  · rw [slabTemplate_three p q hq hp]
    intro y hy
    simp only [Finset.mem_insert, Finset.mem_singleton] at hy
    rcases hy with rfl | rfl <;>
      exact ⟨rfl, by simp [List.sorted_cons]; try omega, rfl, by
        intro e he
        simp only [List.mem_cons, List.not_mem_nil, or_false] at he
        omega⟩

theorem edgeTemplate_shape (st : ℤ) (hst : 1 ≤ st) (dim : ℕ)
    (hdim : 1 < dim ∧ dim ≤ 2) :
    ∀ y ∈ edgeTemplate st dim, y.length = dim ∧ List.Sorted (· < ·) y ∧
      y.getLast? = some st ∧ ∀ e ∈ y, 0 ≤ e ∧ e ≤ st := by
  obtain ⟨hd1, hd2⟩ := hdim
  interval_cases dim
  rw [edgeTemplate_two st hst]
  intro y hy
  simp only [Finset.mem_singleton] at hy
  subst hy
  exact ⟨rfl, by simp [List.sorted_cons]; try omega, rfl, by
    intro e he
    simp only [List.mem_cons, List.not_mem_nil, or_false] at he
    omega⟩

/-! ### Base-position streams: membership and uniqueness -/

theorem mem_positions3 (s : List ℤ) (a b c : ℕ) (v : ℤ) :
    v ∈ positions3 s a b c ↔ ∃ i < a - 1, ∃ j < b - 1, ∃ k < c - 1,
      (i : ℤ) * s.getD 0 0 + (j : ℤ) * s.getD 1 0 + (k : ℤ) * s.getD 2 0 = v := by
  simp [positions3, List.mem_flatMap, List.mem_map, List.mem_range]

theorem mem_positions2 (p q : ℤ) (m n : ℕ) (v : ℤ) :
    v ∈ positions2 p q m n ↔ ∃ i < m - 1, ∃ j < n - 1,
      (i : ℤ) * p + (j : ℤ) * q = v := by
  simp [positions2, List.mem_flatMap, List.mem_map, List.mem_range]

theorem mem_positions1 (st : ℤ) (m : ℕ) (v : ℤ) :
    v ∈ positions1 st m ↔ ∃ i < m - 1, (i : ℤ) * st = v := by
  simp [positions1, List.mem_map, List.mem_range]

theorem nodup_positions1 (st : ℤ) (m : ℕ) (hst : 1 ≤ st) : (positions1 st m).Nodup := by
  rw [positions1]
  refine List.Nodup.map_on ?_ (List.nodup_range _)
  intro i1 h1 i2 h2 heq
  have : (i1 : ℤ) = i2 := mul_right_cancel₀ (by omega) heq
  exact_mod_cast this

theorem nodup_positions2 (p q : ℤ) (m n : ℕ)
    (hinj : ∀ i1 j1 i2 j2 : ℕ, i1 < m - 1 → j1 < n - 1 → i2 < m - 1 → j2 < n - 1 →
      (i1 : ℤ) * p + (j1 : ℤ) * q = (i2 : ℤ) * p + (j2 : ℤ) * q → i1 = i2 ∧ j1 = j2) :
    (positions2 p q m n).Nodup := by
  rw [positions2, List.nodup_flatMap]
  constructor
  · intro i hi
    rw [List.mem_range] at hi
    refine List.Nodup.map_on ?_ (List.nodup_range _)
    intro j1 h1 j2 h2 heq
    rw [List.mem_range] at h1 h2
    exact (hinj i j1 i j2 hi h1 hi h2 heq).2
  · rw [List.pairwise_iff_forall_sublist]
    intro i1 i2 hsub
    have hmem := hsub.subset
    have hi1 : i1 < m - 1 := by
      have := hmem (List.mem_cons_self _ _)
      rwa [List.mem_range] at this
    have hi2 : i2 < m - 1 := by
      have := hmem (show i2 ∈ [i1, i2] by simp)
      rwa [List.mem_range] at this
    have hne : i1 ≠ i2 := by
      have hp2 := (List.pairwise_lt_range (m - 1)).sublist hsub
      rcases List.pairwise_cons.1 hp2 with ⟨hf, -⟩
      exact Nat.ne_of_lt (hf i2 (List.mem_cons_self _ _))
    intro v hv1 hv2
    rw [List.mem_map] at hv1 hv2
    obtain ⟨j1, hj1, he1⟩ := hv1
    obtain ⟨j2, hj2, he2⟩ := hv2
    rw [List.mem_range] at hj1 hj2
    exact hne (hinj i1 j1 i2 j2 hi1 hj1 hi2 hj2 (he1.trans he2.symm)).1

theorem nodup_positions3 (s : List ℤ) (a b c : ℕ)
    (hinj : ∀ i1 j1 k1 i2 j2 k2 : ℕ, i1 < a - 1 → j1 < b - 1 → k1 < c - 1 →
      i2 < a - 1 → j2 < b - 1 → k2 < c - 1 →
      (i1 : ℤ) * s.getD 0 0 + (j1 : ℤ) * s.getD 1 0 + (k1 : ℤ) * s.getD 2 0 =
        (i2 : ℤ) * s.getD 0 0 + (j2 : ℤ) * s.getD 1 0 + (k2 : ℤ) * s.getD 2 0 →
      i1 = i2 ∧ j1 = j2 ∧ k1 = k2) :
    (positions3 s a b c).Nodup := by
  rw [positions3, List.nodup_flatMap]
  constructor
  · intro i hi
    rw [List.mem_range] at hi
    rw [List.nodup_flatMap]
    constructor
    · intro j hj
      rw [List.mem_range] at hj
      refine List.Nodup.map_on ?_ (List.nodup_range _)
      intro k1 h1 k2 h2 heq
      rw [List.mem_range] at h1 h2
      exact (hinj i j k1 i j k2 hi hj h1 hi hj h2 heq).2.2
    · rw [List.pairwise_iff_forall_sublist]
      intro j1 j2 hsub
      have hmem := hsub.subset
      have hj1 : j1 < b - 1 := by
        have := hmem (List.mem_cons_self _ _)
        rwa [List.mem_range] at this
      have hj2 : j2 < b - 1 := by
        have := hmem (show j2 ∈ [j1, j2] by simp)
        rwa [List.mem_range] at this
      have hne : j1 ≠ j2 := by
        have hp2 := (List.pairwise_lt_range (b - 1)).sublist hsub
        rcases List.pairwise_cons.1 hp2 with ⟨hf, -⟩
        exact Nat.ne_of_lt (hf j2 (List.mem_cons_self _ _))
      intro v hv1 hv2
      rw [List.mem_map] at hv1 hv2
      obtain ⟨k1, hk1, he1⟩ := hv1
      obtain ⟨k2, hk2, he2⟩ := hv2
      rw [List.mem_range] at hk1 hk2
      exact hne (hinj i j1 k1 i j2 k2 hi hj1 hk1 hi hj2 hk2 (he1.trans he2.symm)).2.1
  · rw [List.pairwise_iff_forall_sublist]
    intro i1 i2 hsub
    have hmem := hsub.subset
    have hi1 : i1 < a - 1 := by
      have := hmem (List.mem_cons_self _ _)
      rwa [List.mem_range] at this
    have hi2 : i2 < a - 1 := by
      have := hmem (show i2 ∈ [i1, i2] by simp)
      rwa [List.mem_range] at this
    have hne : i1 ≠ i2 := by
      have hp2 := (List.pairwise_lt_range (a - 1)).sublist hsub
      rcases List.pairwise_cons.1 hp2 with ⟨hf, -⟩
      exact Nat.ne_of_lt (hf i2 (List.mem_cons_self _ _))
    intro v hv1 hv2
    simp only [List.mem_flatMap, List.mem_map, List.mem_range] at hv1 hv2
    obtain ⟨j1, hj1, k1, hk1, he1⟩ := hv1
    obtain ⟨j2, hj2, k2, hk2, he2⟩ := hv2
    exact hne (hinj i1 j1 k1 i2 j2 k2 hi1 hj1 hk1 hi2 hj2 hk2 (he1.trans he2.symm)).1

/-! ### Per-stratum structure of a yielded simplex -/

theorem interior_master (a b c dim : ℕ) (v : PyVal)
    (hv : v ∈ interiorYields [((b * c : ℕ) : ℤ), ((c : ℕ) : ℤ), 1] a b c dim) :
    (1 < dim ∧ dim ≤ 4) ∧ 2 ≤ a ∧ 2 ≤ b ∧ 2 ≤ c ∧
      ∃ x y z : ℕ, 1 ≤ x ∧ x < a ∧ 1 ≤ y ∧ y < b ∧ 1 ≤ z ∧ z < c ∧
      ∃ l, v = PyVal.list l ∧ l.length = dim ∧ List.Sorted (· < ·) l ∧
        pyLast v = some (((x * (b * c) + y * c + z : ℕ) : ℤ)) ∧
        ∀ e ∈ l, 0 ≤ e ∧ e < ((a * b * c : ℕ) : ℤ) := by
  by_cases hg : 1 < dim ∧ dim ≤ 4
  · rw [interiorYields_guard _ _ _ _ _ hg] at hv
    have hv' := hv
    rw [mem_translateYields] at hv'
    obtain ⟨n0, hn0, -⟩ := hv'
    rw [mem_positions3] at hn0
    obtain ⟨i0, hi0, j0, hj0, k0, hk0, -⟩ := hn0
    have ha : 2 ≤ a := by omega
    have hb : 2 ≤ b := by omega
    have hc : 2 ≤ c := by omega
    obtain ⟨hs1, hs0⟩ := strides3_facts b c hb hc
    obtain ⟨nn, hnn, l, hvl, hlen, hsort, hlast, hbnd⟩ :=
      translateYields_shape _ _ dim (((b * c : ℕ) : ℤ) + ((c : ℕ) : ℤ) + 1)
        (interiorTemplate_shape _ _ hs1 hs0 dim hg) v hv
    rw [mem_positions3] at hnn
    obtain ⟨i, hi, j, hj, k, hk, hne⟩ := hnn
    have hNT : nn + (((b * c : ℕ) : ℤ) + ((c : ℕ) : ℤ) + 1) =
        (((i + 1) * (b * c) + (j + 1) * c + (k + 1) : ℕ) : ℤ) := by
      rw [← hne]
      simp only [List.getD_cons_zero, List.getD_cons_succ]
      push_cast
      ring
    refine ⟨hg, ha, hb, hc, i + 1, j + 1, k + 1, by omega, by omega, by omega, by omega,
      by omega, by omega, l, hvl, hlen, hsort, ?_, ?_⟩
    · rw [hlast, hNT]
    · intro e he
      have hb2 := hbnd e he
      have h0n : (0 : ℤ) ≤ nn := by
        rw [← hne]
        simp only [List.getD_cons_zero, List.getD_cons_succ]
        positivity
      have hub : ((i + 1) * (b * c) + (j + 1) * c + (k + 1) : ℕ) < a * b * c :=
        digits3_bound a b c _ _ _ (by omega) (by omega) (by omega)
      have hub' : (((i + 1) * (b * c) + (j + 1) * c + (k + 1) : ℕ) : ℤ) <
          ((a * b * c : ℕ) : ℤ) := by exact_mod_cast hub
      exact ⟨by linarith [hb2.1], by linarith [hb2.2]⟩
  · rw [interiorYields_empty _ _ _ _ _ hg] at hv
    simp at hv

theorem slab_master (p q : ℤ) (m n dim : ℕ) (v : PyVal)
    (hpq : 2 ≤ m → 2 ≤ n → 1 ≤ q ∧ 2 * q ≤ p)
    (hv : v ∈ slabYields p q m n dim) :
    (1 < dim ∧ dim ≤ 3) ∧ 2 ≤ m ∧ 2 ≤ n ∧
      ∃ i j : ℕ, 1 ≤ i ∧ i < m ∧ 1 ≤ j ∧ j < n ∧
      ∃ l, v = PyVal.list l ∧ l.length = dim ∧ List.Sorted (· < ·) l ∧
        pyLast v = some ((i : ℤ) * p + (j : ℤ) * q) ∧
        ∀ e ∈ l, 0 ≤ e ∧ e ≤ (i : ℤ) * p + (j : ℤ) * q := by
  by_cases hg : 1 < dim ∧ dim ≤ 3
  · rw [slabYields_guard _ _ _ _ _ hg] at hv
    have hv' := hv
    rw [mem_translateYields] at hv'
    obtain ⟨n0, hn0, -⟩ := hv'
    rw [mem_positions2] at hn0
    obtain ⟨i0, hi0, j0, hj0, -⟩ := hn0
    have hm : 2 ≤ m := by omega
    have hn2 : 2 ≤ n := by omega
    obtain ⟨hq, hp⟩ := hpq hm hn2
    obtain ⟨nn, hnn, l, hvl, hlen, hsort, hlast, hbnd⟩ :=
      translateYields_shape _ _ dim (p + q) (slabTemplate_shape p q hq hp dim hg) v hv
    rw [mem_positions2] at hnn
    obtain ⟨i, hi, j, hj, hne⟩ := hnn
    have hNT : nn + (p + q) = ((i + 1 : ℕ) : ℤ) * p + ((j + 1 : ℕ) : ℤ) * q := by
      rw [← hne]
      push_cast
      ring
    refine ⟨hg, hm, hn2, i + 1, j + 1, by omega, by omega, by omega, by omega,
      l, hvl, hlen, hsort, ?_, ?_⟩
    · rw [hlast, hNT]
    · intro e he
      have hb2 := hbnd e he
      have hq0 : (0 : ℤ) ≤ q := by linarith
      have hp0 : (0 : ℤ) ≤ p := by linarith
      have h0n : (0 : ℤ) ≤ nn := by
        rw [← hne]
        have e1 := mul_nonneg (show (0 : ℤ) ≤ (i : ℤ) by positivity) hp0
        have e2 := mul_nonneg (show (0 : ℤ) ≤ (j : ℤ) by positivity) hq0
        linarith
      exact ⟨by linarith [hb2.1], by linarith [hb2.2]⟩
  · rw [slabYields_empty _ _ _ _ _ hg] at hv
    simp at hv

theorem edge_master (st : ℤ) (m dim : ℕ) (v : PyVal)
    (hst : 2 ≤ m → 1 ≤ st)
    (hv : v ∈ edgeYields st m dim) :
    (1 < dim ∧ dim ≤ 2) ∧ 2 ≤ m ∧
      ∃ i : ℕ, 1 ≤ i ∧ i < m ∧
      ∃ l, v = PyVal.list l ∧ l.length = dim ∧ List.Sorted (· < ·) l ∧
        pyLast v = some ((i : ℤ) * st) ∧ ∀ e ∈ l, 0 ≤ e ∧ e ≤ (i : ℤ) * st := by
  by_cases hg : 1 < dim ∧ dim ≤ 2
  · rw [edgeYields_guard _ _ _ hg] at hv
    have hv' := hv
    rw [mem_translateYields] at hv'
    obtain ⟨n0, hn0, -⟩ := hv'
    rw [mem_positions1] at hn0
    obtain ⟨i0, hi0, -⟩ := hn0
    have hm : 2 ≤ m := by omega
    have hst1 := hst hm
    obtain ⟨nn, hnn, l, hvl, hlen, hsort, hlast, hbnd⟩ :=
      translateYields_shape _ _ dim st (edgeTemplate_shape st hst1 dim hg) v hv
    rw [mem_positions1] at hnn
    obtain ⟨i, hi, hne⟩ := hnn
    have hNT : nn + st = ((i + 1 : ℕ) : ℤ) * st := by
      rw [← hne]
      push_cast
      ring
    refine ⟨hg, hm, i + 1, by omega, by omega, l, hvl, hlen, hsort, ?_, ?_⟩
    · rw [hlast, hNT]
    · intro e he
      have hb2 := hbnd e he
      have h0n : (0 : ℤ) ≤ nn := by
        rw [← hne]
        have e1 := mul_nonneg (show (0 : ℤ) ≤ (i : ℤ) by positivity)
          (show (0 : ℤ) ≤ st by linarith)
        linarith
      exact ⟨by linarith [hb2.1], by linarith [hb2.2]⟩
  · rw [edgeYields_empty _ _ _ hg] at hv
    simp at hv

/-! ### Degenerate axes contribute no base positions -/

theorem positions3_degenerate (s : List ℤ) (a b c : ℕ) (h : ¬(2 ≤ a ∧ 2 ≤ b ∧ 2 ≤ c)) :
    positions3 s a b c = [] := by
  rw [← List.length_eq_zero, length_positions3]
  rcases (by omega : a < 2 ∨ b < 2 ∨ c < 2) with h1 | h1 | h1
  · simp [show a - 1 = 0 from by omega]
  · simp [show b - 1 = 0 from by omega]
  · simp [show c - 1 = 0 from by omega]

theorem positions2_degenerate (p q : ℤ) (m n : ℕ) (h : ¬(2 ≤ m ∧ 2 ≤ n)) :
    positions2 p q m n = [] := by
  rw [← List.length_eq_zero, length_positions2]
  rcases (by omega : m < 2 ∨ n < 2) with h1 | h1
  · simp [show m - 1 = 0 from by omega]
  · simp [show n - 1 = 0 from by omega]

theorem positions1_degenerate (st : ℤ) (m : ℕ) (h : m < 2) : positions1 st m = [] := by
  rw [← List.length_eq_zero, length_positions1]
  omega

/-! ### Equal vertex sets of sorted simplices -/

theorem pyVertexSet_inj {v1 v2 : PyVal} {l1 l2 : List ℤ}
    (h1 : v1 = PyVal.list l1) (h2 : v2 = PyVal.list l2)
    (hs1 : List.Sorted (· < ·) l1) (hs2 : List.Sorted (· < ·) l2)
    (h : pyVertexSet v1 = pyVertexSet v2) : v1 = v2 := by
  subst h1
  subst h2
  have hp : l1.Perm l2 := List.perm_of_nodup_nodup_toFinset_eq hs1.nodup hs2.nodup (by
    simpa [pyVertexSet] using h)
  rw [List.eq_of_perm_of_sorted hp hs1.le_of_lt hs2.le_of_lt]

theorem pyVertexSet_pyLast {v1 v2 : PyVal} {l1 l2 : List ℤ}
    (h1 : v1 = PyVal.list l1) (h2 : v2 = PyVal.list l2)
    (hs1 : List.Sorted (· < ·) l1) (hs2 : List.Sorted (· < ·) l2)
    (h : pyVertexSet v1 = pyVertexSet v2) : pyLast v1 = pyLast v2 := by
  rw [pyVertexSet_inj h1 h2 hs1 hs2 h]

theorem nodup_map_part {P : List PyVal} (hnd : P.Nodup)
    (hshape : ∀ v ∈ P, ∃ l, v = PyVal.list l ∧ List.Sorted (· < ·) l) :
    (P.map pyVertexSet).Nodup := by
  refine List.Nodup.map_on ?_ hnd
  intro v1 hm1 v2 hm2 heq
  obtain ⟨l1, he1, hs1⟩ := hshape v1 hm1
  obtain ⟨l2, he2, hs2⟩ := hshape v2 hm2
  exact pyVertexSet_inj he1 he2 hs1 hs2 heq

theorem map_disjoint_of_lasts {A B : List PyVal}
    (hA : ∀ v ∈ A, ∃ l, v = PyVal.list l ∧ List.Sorted (· < ·) l)
    (hB : ∀ v ∈ B, ∃ l, v = PyVal.list l ∧ List.Sorted (· < ·) l)
    (hlast : ∀ v1 ∈ A, ∀ v2 ∈ B, pyLast v1 ≠ pyLast v2) :
    List.Disjoint (A.map pyVertexSet) (B.map pyVertexSet) := by
  intro w hw1 hw2
  rw [List.mem_map] at hw1 hw2
  obtain ⟨v1, hv1, rfl⟩ := hw1
  obtain ⟨v2, hv2, hw⟩ := hw2
  obtain ⟨l1, he1, hs1⟩ := hA v1 hv1
  obtain ⟨l2, he2, hs2⟩ := hB v2 hv2
  exact hlast v1 hv1 v2 hv2 (pyVertexSet_pyLast he1 he2 hs1 hs2 hw.symm)

theorem digit_conflict (b c x1 y1 z1 x2 y2 z2 : ℕ) (hy1 : y1 < b) (hz1 : z1 < c)
    (hy2 : y2 < b) (hz2 : z2 < c)
    (hdiff : (1 ≤ x1 ∧ x2 = 0) ∨ (x1 = 0 ∧ 1 ≤ x2) ∨ (1 ≤ y1 ∧ y2 = 0) ∨
      (y1 = 0 ∧ 1 ≤ y2) ∨ (1 ≤ z1 ∧ z2 = 0) ∨ (z1 = 0 ∧ 1 ≤ z2))
    (h : ((x1 * (b * c) + y1 * c + z1 : ℕ) : ℤ) = ((x2 * (b * c) + y2 * c + z2 : ℕ) : ℤ)) :
    False := by
  have hN : x1 * (b * c) + y1 * c + z1 = x2 * (b * c) + y2 * c + z2 := by exact_mod_cast h
  obtain ⟨e1, e2, e3⟩ := digits3_inj b c x1 y1 z1 x2 y2 z2 hy1 hz1 hy2 hz2 hN
  omega

theorem digit2_conflict (n x1 y1 x2 y2 : ℕ) (hy1 : y1 < n) (hy2 : y2 < n)
    (hdiff : (1 ≤ x1 ∧ x2 = 0) ∨ (x1 = 0 ∧ 1 ≤ x2) ∨ (1 ≤ y1 ∧ y2 = 0) ∨ (y1 = 0 ∧ 1 ≤ y2))
    (h : ((x1 * n + y1 : ℕ) : ℤ) = ((x2 * n + y2 : ℕ) : ℤ)) : False := by
  have hN : x1 * n + y1 = x2 * n + y2 := by exact_mod_cast h
  obtain ⟨e1, e2⟩ := digits2_inj n x1 y1 x2 y2 hy1 hy2 hN
  omega

/-! ### Within-stratum uniqueness -/

theorem inj3_strides (b c i1 j1 k1 i2 j2 k2 : ℕ) (hj1 : j1 < b) (hk1 : k1 < c)
    (hj2 : j2 < b) (hk2 : k2 < c)
    (h : (i1 : ℤ) * ((b * c : ℕ) : ℤ) + (j1 : ℤ) * ((c : ℕ) : ℤ) + (k1 : ℤ) * 1 =
         (i2 : ℤ) * ((b * c : ℕ) : ℤ) + (j2 : ℤ) * ((c : ℕ) : ℤ) + (k2 : ℤ) * 1) :
    i1 = i2 ∧ j1 = j2 ∧ k1 = k2 := by
  have hN : i1 * (b * c) + j1 * c + k1 = i2 * (b * c) + j2 * c + k2 := by
    simp only [mul_one] at h
    exact_mod_cast h
  exact digits3_inj b c i1 j1 k1 i2 j2 k2 hj1 hk1 hj2 hk2 hN

theorem nodup_interiorYields (a b c dim : ℕ) :
    (interiorYields [((b * c : ℕ) : ℤ), ((c : ℕ) : ℤ), 1] a b c dim).Nodup := by
  by_cases hg : 1 < dim ∧ dim ≤ 4
  · rw [interiorYields_guard _ _ _ _ _ hg]
    by_cases hd : 2 ≤ a ∧ 2 ≤ b ∧ 2 ≤ c
    · obtain ⟨ha, hb, hc⟩ := hd
      obtain ⟨hs1, hs0⟩ := strides3_facts b c hb hc
      refine nodup_translateYields _ _ (((b * c : ℕ) : ℤ) + ((c : ℕ) : ℤ) + 1) ?_ ?_
      · refine nodup_positions3 _ a b c ?_
        intro i1 j1 k1 i2 j2 k2 h1 h2 h3 h4 h5 h6 heq
        exact inj3_strides b c i1 j1 k1 i2 j2 k2 (by omega) (by omega) (by omega) (by omega)
          heq
      · intro y hy
        exact (interiorTemplate_shape _ _ hs1 hs0 dim hg y hy).2.2.1
    · rw [positions3_degenerate _ _ _ _ hd]
      exact List.nodup_nil
  · rw [interiorYields_empty _ _ _ _ _ hg]
    exact List.nodup_nil

theorem nodup_slabYields (p q : ℤ) (m n dim : ℕ)
    (hpq : 2 ≤ m → 2 ≤ n → 1 ≤ q ∧ 2 * q ≤ p)
    (hinj : ∀ i1 j1 i2 j2 : ℕ, i1 < m - 1 → j1 < n - 1 → i2 < m - 1 → j2 < n - 1 →
      (i1 : ℤ) * p + (j1 : ℤ) * q = (i2 : ℤ) * p + (j2 : ℤ) * q → i1 = i2 ∧ j1 = j2) :
    (slabYields p q m n dim).Nodup := by
  by_cases hg : 1 < dim ∧ dim ≤ 3
  · rw [slabYields_guard _ _ _ _ _ hg]
    by_cases hd : 2 ≤ m ∧ 2 ≤ n
    · obtain ⟨hm, hn⟩ := hd
      obtain ⟨hq, hp⟩ := hpq hm hn
      exact nodup_translateYields _ _ (p + q) (nodup_positions2 p q m n hinj)
        (fun y hy => (slabTemplate_shape p q hq hp dim hg y hy).2.2.1)
    · rw [positions2_degenerate _ _ _ _ hd]
      exact List.nodup_nil
  · rw [slabYields_empty _ _ _ _ _ hg]
    exact List.nodup_nil

theorem nodup_edgeYields (st : ℤ) (m dim : ℕ) (hst : 2 ≤ m → 1 ≤ st) :
    (edgeYields st m dim).Nodup := by
  by_cases hg : 1 < dim ∧ dim ≤ 2
  · rw [edgeYields_guard _ _ _ hg]
    by_cases hd : 2 ≤ m
    · have hst1 := hst hd
      exact nodup_translateYields _ _ st (nodup_positions1 st m hst1)
        (fun y hy => (edgeTemplate_shape st hst1 dim hg y hy).2.2.1)
    · rw [positions1_degenerate _ _ (by omega)]
      exact List.nodup_nil
  · rw [edgeYields_empty _ _ _ hg]
    exact List.nodup_nil

theorem nodup_slab_bc (a b c dim : ℕ) (hc : 1 ≤ c) :
    (slabYields ((b * c : ℕ) : ℤ) ((c : ℕ) : ℤ) a b dim).Nodup := by
  refine nodup_slabYields _ _ a b dim
    (fun hm hn => ⟨by exact_mod_cast hc, by exact_mod_cast Nat.mul_le_mul hn (le_refl c)⟩) ?_
  intro i1 j1 i2 j2 h1 h2 h3 h4 heq
  have hN : i1 * (b * c) + j1 * c = i2 * (b * c) + j2 * c := by exact_mod_cast heq
  have hN0 : i1 * (b * c) + j1 * c + 0 = i2 * (b * c) + j2 * c + 0 := by simpa using hN
  obtain ⟨e1, e2, -⟩ := digits3_inj b c i1 j1 0 i2 j2 0 (by omega) (by omega) (by omega)
    (by omega) hN0
  exact ⟨e1, e2⟩

theorem nodup_slab_p1 (a b c dim : ℕ) (hb : 1 ≤ b) :
    (slabYields ((b * c : ℕ) : ℤ) 1 a c dim).Nodup := by
  refine nodup_slabYields _ _ a c dim
    (fun hm hn => ⟨by norm_num, by
      have h2 : (2 : ℕ) ≤ b * c := by simpa using Nat.mul_le_mul hb hn
      exact_mod_cast h2⟩) ?_
  intro i1 j1 i2 j2 h1 h2 h3 h4 heq
  simp only [mul_one] at heq
  have hN : i1 * (b * c) + j1 = i2 * (b * c) + j2 := by exact_mod_cast heq
  have hcb : c ≤ b * c := by
    have := Nat.mul_le_mul hb (le_refl c)
    simpa using this
  exact digits2_inj (b * c) i1 j1 i2 j2 (lt_of_lt_of_le (by omega) hcb)
    (lt_of_lt_of_le (by omega) hcb) hN

theorem nodup_slab_c1 (b c dim : ℕ) :
    (slabYields ((c : ℕ) : ℤ) 1 b c dim).Nodup := by
  refine nodup_slabYields _ _ b c dim
    (fun hm hn => ⟨by norm_num, by exact_mod_cast hn⟩) ?_
  intro i1 j1 i2 j2 h1 h2 h3 h4 heq
  simp only [mul_one] at heq
  have hN : i1 * c + j1 = i2 * c + j2 := by exact_mod_cast heq
  exact digits2_inj c i1 j1 i2 j2 (by omega) (by omega) hN

theorem nodup_edge_bc (a b c dim : ℕ) (hb : 1 ≤ b) (hc : 1 ≤ c) :
    (edgeYields ((b * c : ℕ) : ℤ) a dim).Nodup := by
  refine nodup_edgeYields _ a dim (fun hm => ?_)
  have h1 : (1 : ℕ) ≤ b * c := by simpa using Nat.mul_le_mul hb hc
  exact_mod_cast h1

theorem nodup_edge_c (b c dim : ℕ) (hc : 1 ≤ c) : (edgeYields ((c : ℕ) : ℤ) b dim).Nodup :=
  nodup_edgeYields _ b dim (fun _ => by exact_mod_cast hc)

theorem nodup_edge_1 (c dim : ℕ) : (edgeYields 1 c dim).Nodup :=
  nodup_edgeYields _ c dim (fun _ => by norm_num)

/-! ### Digit-form masters per stratum instance -/

theorem master3_s01 (a b c dim : ℕ) (v : PyVal) (hc : 1 ≤ c)
    (hv : v ∈ slabYields ((b * c : ℕ) : ℤ) ((c : ℕ) : ℤ) a b dim) :
    (1 < dim ∧ dim ≤ 3) ∧
      ∃ x y : ℕ, 1 ≤ x ∧ x < a ∧ 1 ≤ y ∧ y < b ∧
      ∃ l, v = PyVal.list l ∧ l.length = dim ∧ List.Sorted (· < ·) l ∧
        pyLast v = some (((x * (b * c) + y * c + 0 : ℕ) : ℤ)) ∧
        ∀ e ∈ l, 0 ≤ e ∧ e < ((a * b * c : ℕ) : ℤ) := by
  obtain ⟨hg, hm, hn, i, j, hi1, hi2, hj1, hj2, l, hvl, hlen, hsort, hlast, hbnd⟩ :=
    slab_master _ _ a b dim v
      (fun hm2 hn2 => ⟨by exact_mod_cast hc, by exact_mod_cast Nat.mul_le_mul hn2 (le_refl c)⟩)
      hv
  have hval : (i : ℤ) * ((b * c : ℕ) : ℤ) + (j : ℤ) * ((c : ℕ) : ℤ) =
      ((i * (b * c) + j * c + 0 : ℕ) : ℤ) := by push_cast; ring
  have hub' : ((i * (b * c) + j * c + 0 : ℕ) : ℤ) < ((a * b * c : ℕ) : ℤ) := by
    exact_mod_cast digits3_bound a b c i j 0 hi2 hj2 (by omega)
  refine ⟨hg, i, j, hi1, hi2, hj1, hj2, l, hvl, hlen, hsort, by rw [hlast, hval], ?_⟩
  intro e he
  obtain ⟨h0, h1⟩ := hbnd e he
  exact ⟨h0, by calc e ≤ _ := h1
    _ = ((i * (b * c) + j * c + 0 : ℕ) : ℤ) := hval
    _ < ((a * b * c : ℕ) : ℤ) := hub'⟩

theorem master3_s02 (a b c dim : ℕ) (v : PyVal) (hb : 1 ≤ b)
    (hv : v ∈ slabYields ((b * c : ℕ) : ℤ) 1 a c dim) :
    (1 < dim ∧ dim ≤ 3) ∧
      ∃ x z : ℕ, 1 ≤ x ∧ x < a ∧ 1 ≤ z ∧ z < c ∧
      ∃ l, v = PyVal.list l ∧ l.length = dim ∧ List.Sorted (· < ·) l ∧
        pyLast v = some (((x * (b * c) + 0 * c + z : ℕ) : ℤ)) ∧
        ∀ e ∈ l, 0 ≤ e ∧ e < ((a * b * c : ℕ) : ℤ) := by
  obtain ⟨hg, hm, hn, i, j, hi1, hi2, hj1, hj2, l, hvl, hlen, hsort, hlast, hbnd⟩ :=
    slab_master _ _ a c dim v
      (fun hm2 hn2 => ⟨by norm_num, by
        have h2 : (2 : ℕ) ≤ b * c := by simpa using Nat.mul_le_mul hb hn2
        exact_mod_cast h2⟩) hv
  have hval : (i : ℤ) * ((b * c : ℕ) : ℤ) + (j : ℤ) * 1 =
      ((i * (b * c) + 0 * c + j : ℕ) : ℤ) := by push_cast; ring
  have hub' : ((i * (b * c) + 0 * c + j : ℕ) : ℤ) < ((a * b * c : ℕ) : ℤ) := by
    exact_mod_cast digits3_bound a b c i 0 j hi2 (by omega) hj2
  refine ⟨hg, i, j, hi1, hi2, hj1, hj2, l, hvl, hlen, hsort, by rw [hlast, hval], ?_⟩
  intro e he
  obtain ⟨h0, h1⟩ := hbnd e he
  exact ⟨h0, by calc e ≤ _ := h1
    _ = ((i * (b * c) + 0 * c + j : ℕ) : ℤ) := hval
    _ < ((a * b * c : ℕ) : ℤ) := hub'⟩

theorem master3_s12 (a b c dim : ℕ) (v : PyVal) (ha : 1 ≤ a)
    (hv : v ∈ slabYields ((c : ℕ) : ℤ) 1 b c dim) :
    (1 < dim ∧ dim ≤ 3) ∧
      ∃ y z : ℕ, 1 ≤ y ∧ y < b ∧ 1 ≤ z ∧ z < c ∧
      ∃ l, v = PyVal.list l ∧ l.length = dim ∧ List.Sorted (· < ·) l ∧
        pyLast v = some (((0 * (b * c) + y * c + z : ℕ) : ℤ)) ∧
        ∀ e ∈ l, 0 ≤ e ∧ e < ((a * b * c : ℕ) : ℤ) := by
  obtain ⟨hg, hm, hn, i, j, hi1, hi2, hj1, hj2, l, hvl, hlen, hsort, hlast, hbnd⟩ :=
    slab_master _ _ b c dim v
      (fun hm2 hn2 => ⟨by norm_num, by exact_mod_cast hn2⟩) hv
  have hval : (i : ℤ) * ((c : ℕ) : ℤ) + (j : ℤ) * 1 =
      ((0 * (b * c) + i * c + j : ℕ) : ℤ) := by push_cast; ring
  have hub' : ((0 * (b * c) + i * c + j : ℕ) : ℤ) < ((a * b * c : ℕ) : ℤ) := by
    exact_mod_cast digits3_bound a b c 0 i j (by omega) hi2 hj2
  refine ⟨hg, i, j, hi1, hi2, hj1, hj2, l, hvl, hlen, hsort, by rw [hlast, hval], ?_⟩
  intro e he
  obtain ⟨h0, h1⟩ := hbnd e he
  exact ⟨h0, by calc e ≤ _ := h1
    _ = ((0 * (b * c) + i * c + j : ℕ) : ℤ) := hval
    _ < ((a * b * c : ℕ) : ℤ) := hub'⟩

theorem master3_e0 (a b c dim : ℕ) (v : PyVal) (hb : 1 ≤ b) (hc : 1 ≤ c)
    (hv : v ∈ edgeYields ((b * c : ℕ) : ℤ) a dim) :
    (1 < dim ∧ dim ≤ 2) ∧
      ∃ x : ℕ, 1 ≤ x ∧ x < a ∧
      ∃ l, v = PyVal.list l ∧ l.length = dim ∧ List.Sorted (· < ·) l ∧
        pyLast v = some (((x * (b * c) + 0 * c + 0 : ℕ) : ℤ)) ∧
        ∀ e ∈ l, 0 ≤ e ∧ e < ((a * b * c : ℕ) : ℤ) := by
  obtain ⟨hg, hm, i, hi1, hi2, l, hvl, hlen, hsort, hlast, hbnd⟩ :=
    edge_master _ a dim v (fun hm2 => by
      have h1 : (1 : ℕ) ≤ b * c := by simpa using Nat.mul_le_mul hb hc
      exact_mod_cast h1) hv
  have hval : (i : ℤ) * ((b * c : ℕ) : ℤ) = ((i * (b * c) + 0 * c + 0 : ℕ) : ℤ) := by
    push_cast; ring
  have hub' : ((i * (b * c) + 0 * c + 0 : ℕ) : ℤ) < ((a * b * c : ℕ) : ℤ) := by
    exact_mod_cast digits3_bound a b c i 0 0 hi2 (by omega) (by omega)
  refine ⟨hg, i, hi1, hi2, l, hvl, hlen, hsort, by rw [hlast, hval], ?_⟩
  intro e he
  obtain ⟨h0, h1⟩ := hbnd e he
  exact ⟨h0, by calc e ≤ _ := h1
    _ = ((i * (b * c) + 0 * c + 0 : ℕ) : ℤ) := hval
    _ < ((a * b * c : ℕ) : ℤ) := hub'⟩

theorem master3_e1 (a b c dim : ℕ) (v : PyVal) (ha : 1 ≤ a) (hc : 1 ≤ c)
    (hv : v ∈ edgeYields ((c : ℕ) : ℤ) b dim) :
    (1 < dim ∧ dim ≤ 2) ∧
      ∃ y : ℕ, 1 ≤ y ∧ y < b ∧
      ∃ l, v = PyVal.list l ∧ l.length = dim ∧ List.Sorted (· < ·) l ∧
        pyLast v = some (((0 * (b * c) + y * c + 0 : ℕ) : ℤ)) ∧
        ∀ e ∈ l, 0 ≤ e ∧ e < ((a * b * c : ℕ) : ℤ) := by
  obtain ⟨hg, hm, i, hi1, hi2, l, hvl, hlen, hsort, hlast, hbnd⟩ :=
    edge_master _ b dim v (fun _ => by exact_mod_cast hc) hv
  have hval : (i : ℤ) * ((c : ℕ) : ℤ) = ((0 * (b * c) + i * c + 0 : ℕ) : ℤ) := by
    push_cast; ring
  have hub' : ((0 * (b * c) + i * c + 0 : ℕ) : ℤ) < ((a * b * c : ℕ) : ℤ) := by
    exact_mod_cast digits3_bound a b c 0 i 0 (by omega) hi2 (by omega)
  refine ⟨hg, i, hi1, hi2, l, hvl, hlen, hsort, by rw [hlast, hval], ?_⟩
  intro e he
  obtain ⟨h0, h1⟩ := hbnd e he
  exact ⟨h0, by calc e ≤ _ := h1
    _ = ((0 * (b * c) + i * c + 0 : ℕ) : ℤ) := hval
    _ < ((a * b * c : ℕ) : ℤ) := hub'⟩

theorem master3_e2 (a b c dim : ℕ) (v : PyVal) (ha : 1 ≤ a) (hb : 1 ≤ b)
    (hv : v ∈ edgeYields 1 c dim) :
    (1 < dim ∧ dim ≤ 2) ∧
      ∃ z : ℕ, 1 ≤ z ∧ z < c ∧
      ∃ l, v = PyVal.list l ∧ l.length = dim ∧ List.Sorted (· < ·) l ∧
        pyLast v = some (((0 * (b * c) + 0 * c + z : ℕ) : ℤ)) ∧
        ∀ e ∈ l, 0 ≤ e ∧ e < ((a * b * c : ℕ) : ℤ) := by
  obtain ⟨hg, hm, i, hi1, hi2, l, hvl, hlen, hsort, hlast, hbnd⟩ :=
    edge_master _ c dim v (fun _ => by norm_num) hv
  have hval : (i : ℤ) * 1 = ((0 * (b * c) + 0 * c + i : ℕ) : ℤ) := by
    push_cast; ring
  have hub' : ((0 * (b * c) + 0 * c + i : ℕ) : ℤ) < ((a * b * c : ℕ) : ℤ) := by
    exact_mod_cast digits3_bound a b c 0 0 i (by omega) (by omega) hi2
  refine ⟨hg, i, hi1, hi2, l, hvl, hlen, hsort, by rw [hlast, hval], ?_⟩
  intro e he
  obtain ⟨h0, h1⟩ := hbnd e he
  exact ⟨h0, by calc e ≤ _ := h1
    _ = ((0 * (b * c) + 0 * c + i : ℕ) : ℤ) := hval
    _ < ((a * b * c : ℕ) : ℤ) := hub'⟩

theorem master2_int (m n dim : ℕ) (v : PyVal)
    (hv : v ∈ slabYields ((n : ℕ) : ℤ) 1 m n dim) :
    (1 < dim ∧ dim ≤ 3) ∧
      ∃ x y : ℕ, 1 ≤ x ∧ x < m ∧ 1 ≤ y ∧ y < n ∧
      ∃ l, v = PyVal.list l ∧ l.length = dim ∧ List.Sorted (· < ·) l ∧
        pyLast v = some (((x * n + y : ℕ) : ℤ)) ∧
        ∀ e ∈ l, 0 ≤ e ∧ e < ((m * n : ℕ) : ℤ) := by
  obtain ⟨hg, hm, hn, i, j, hi1, hi2, hj1, hj2, l, hvl, hlen, hsort, hlast, hbnd⟩ :=
    slab_master _ _ m n dim v
      (fun hm2 hn2 => ⟨by norm_num, by exact_mod_cast hn2⟩) hv
  have hval : (i : ℤ) * ((n : ℕ) : ℤ) + (j : ℤ) * 1 = ((i * n + j : ℕ) : ℤ) := by
    push_cast; ring
  have hub' : ((i * n + j : ℕ) : ℤ) < ((m * n : ℕ) : ℤ) := by
    exact_mod_cast digits2_bound m n i j hi2 hj2
  refine ⟨hg, i, j, hi1, hi2, hj1, hj2, l, hvl, hlen, hsort, by rw [hlast, hval], ?_⟩
  intro e he
  obtain ⟨h0, h1⟩ := hbnd e he
  exact ⟨h0, by calc e ≤ _ := h1
    _ = ((i * n + j : ℕ) : ℤ) := hval
    _ < ((m * n : ℕ) : ℤ) := hub'⟩

theorem master2_e0 (m n dim : ℕ) (v : PyVal) (hn : 1 ≤ n)
    (hv : v ∈ edgeYields ((n : ℕ) : ℤ) m dim) :
    (1 < dim ∧ dim ≤ 2) ∧
      ∃ x : ℕ, 1 ≤ x ∧ x < m ∧
      ∃ l, v = PyVal.list l ∧ l.length = dim ∧ List.Sorted (· < ·) l ∧
        pyLast v = some (((x * n + 0 : ℕ) : ℤ)) ∧
        ∀ e ∈ l, 0 ≤ e ∧ e < ((m * n : ℕ) : ℤ) := by
  obtain ⟨hg, hm, i, hi1, hi2, l, hvl, hlen, hsort, hlast, hbnd⟩ :=
    edge_master _ m dim v (fun _ => by exact_mod_cast hn) hv
  have hval : (i : ℤ) * ((n : ℕ) : ℤ) = ((i * n + 0 : ℕ) : ℤ) := by push_cast; ring
  have hub' : ((i * n + 0 : ℕ) : ℤ) < ((m * n : ℕ) : ℤ) := by
    exact_mod_cast digits2_bound m n i 0 hi2 (by omega)
  refine ⟨hg, i, hi1, hi2, l, hvl, hlen, hsort, by rw [hlast, hval], ?_⟩
  intro e he
  obtain ⟨h0, h1⟩ := hbnd e he
  exact ⟨h0, by calc e ≤ _ := h1
    _ = ((i * n + 0 : ℕ) : ℤ) := hval
    _ < ((m * n : ℕ) : ℤ) := hub'⟩

theorem master2_e1 (m n dim : ℕ) (v : PyVal) (hm : 1 ≤ m)
    (hv : v ∈ edgeYields 1 n dim) :
    (1 < dim ∧ dim ≤ 2) ∧
      ∃ y : ℕ, 1 ≤ y ∧ y < n ∧
      ∃ l, v = PyVal.list l ∧ l.length = dim ∧ List.Sorted (· < ·) l ∧
        pyLast v = some (((0 * n + y : ℕ) : ℤ)) ∧
        ∀ e ∈ l, 0 ≤ e ∧ e < ((m * n : ℕ) : ℤ) := by
  obtain ⟨hg, hm2, i, hi1, hi2, l, hvl, hlen, hsort, hlast, hbnd⟩ :=
    edge_master _ n dim v (fun _ => by norm_num) hv
  have hval : (i : ℤ) * 1 = ((0 * n + i : ℕ) : ℤ) := by push_cast; ring
  have hub' : ((0 * n + i : ℕ) : ℤ) < ((m * n : ℕ) : ℤ) := by
    exact_mod_cast digits2_bound m n 0 i (by omega) hi2
  refine ⟨hg, i, hi1, hi2, l, hvl, hlen, hsort, by rw [hlast, hval], ?_⟩
  intro e he
  obtain ⟨h0, h1⟩ := hbnd e he
  exact ⟨h0, by calc e ≤ _ := h1
    _ = ((0 * n + i : ℕ) : ℤ) := hval
    _ < ((m * n : ℕ) : ℤ) := hub'⟩

/-! ### Every template-stratum yield is a sorted simplex -/

theorem shape3_int (a b c dim : ℕ) :
    ∀ v ∈ interiorYields [((b * c : ℕ) : ℤ), ((c : ℕ) : ℤ), 1] a b c dim,
      ∃ l, v = PyVal.list l ∧ List.Sorted (· < ·) l := by
  intro v hv
  obtain ⟨-, -, -, -, x, y, z, -, -, -, -, -, -, l, hvl, -, hsort, -, -⟩ :=
    interior_master a b c dim v hv
  exact ⟨l, hvl, hsort⟩

theorem shape3_s01 (a b c dim : ℕ) (hc : 1 ≤ c) :
    ∀ v ∈ slabYields ((b * c : ℕ) : ℤ) ((c : ℕ) : ℤ) a b dim,
      ∃ l, v = PyVal.list l ∧ List.Sorted (· < ·) l := by
  intro v hv
  obtain ⟨-, x, y, -, -, -, -, l, hvl, -, hsort, -, -⟩ := master3_s01 a b c dim v hc hv
  exact ⟨l, hvl, hsort⟩

theorem shape3_s02 (a b c dim : ℕ) (hb : 1 ≤ b) :
    ∀ v ∈ slabYields ((b * c : ℕ) : ℤ) 1 a c dim,
      ∃ l, v = PyVal.list l ∧ List.Sorted (· < ·) l := by
  intro v hv
  obtain ⟨-, x, z, -, -, -, -, l, hvl, -, hsort, -, -⟩ := master3_s02 a b c dim v hb hv
  exact ⟨l, hvl, hsort⟩

theorem shape3_s12 (a b c dim : ℕ) (ha : 1 ≤ a) :
    ∀ v ∈ slabYields ((c : ℕ) : ℤ) 1 b c dim,
      ∃ l, v = PyVal.list l ∧ List.Sorted (· < ·) l := by
  intro v hv
  obtain ⟨-, y, z, -, -, -, -, l, hvl, -, hsort, -, -⟩ := master3_s12 a b c dim v ha hv
  exact ⟨l, hvl, hsort⟩

theorem shape3_e0 (a b c dim : ℕ) (hb : 1 ≤ b) (hc : 1 ≤ c) :
    ∀ v ∈ edgeYields ((b * c : ℕ) : ℤ) a dim,
      ∃ l, v = PyVal.list l ∧ List.Sorted (· < ·) l := by
  intro v hv
  obtain ⟨-, x, -, -, l, hvl, -, hsort, -, -⟩ := master3_e0 a b c dim v hb hc hv
  exact ⟨l, hvl, hsort⟩

theorem shape3_e1 (a b c dim : ℕ) (ha : 1 ≤ a) (hc : 1 ≤ c) :
    ∀ v ∈ edgeYields ((c : ℕ) : ℤ) b dim,
      ∃ l, v = PyVal.list l ∧ List.Sorted (· < ·) l := by
  intro v hv
  obtain ⟨-, y, -, -, l, hvl, -, hsort, -, -⟩ := master3_e1 a b c dim v ha hc hv
  exact ⟨l, hvl, hsort⟩

theorem shape3_e2 (a b c dim : ℕ) (ha : 1 ≤ a) (hb : 1 ≤ b) :
    ∀ v ∈ edgeYields 1 c dim,
      ∃ l, v = PyVal.list l ∧ List.Sorted (· < ·) l := by
  intro v hv
  obtain ⟨-, z, -, -, l, hvl, -, hsort, -, -⟩ := master3_e2 a b c dim v ha hb hv
  exact ⟨l, hvl, hsort⟩

theorem shape2_int (m n dim : ℕ) :
    ∀ v ∈ slabYields ((n : ℕ) : ℤ) 1 m n dim,
      ∃ l, v = PyVal.list l ∧ List.Sorted (· < ·) l := by
  intro v hv
  obtain ⟨-, x, y, -, -, -, -, l, hvl, -, hsort, -, -⟩ := master2_int m n dim v hv
  exact ⟨l, hvl, hsort⟩

theorem shape2_e0 (m n dim : ℕ) (hn : 1 ≤ n) :
    ∀ v ∈ edgeYields ((n : ℕ) : ℤ) m dim,
      ∃ l, v = PyVal.list l ∧ List.Sorted (· < ·) l := by
  intro v hv
  obtain ⟨-, x, -, -, l, hvl, -, hsort, -, -⟩ := master2_e0 m n dim v hn hv
  exact ⟨l, hvl, hsort⟩

theorem shape2_e1 (m n dim : ℕ) (hm : 1 ≤ m) :
    ∀ v ∈ edgeYields 1 n dim,
      ∃ l, v = PyVal.list l ∧ List.Sorted (· < ·) l := by
  intro v hv
  obtain ⟨-, y, -, -, l, hvl, -, hsort, -, -⟩ := master2_e1 m n dim v hm hv
  exact ⟨l, hvl, hsort⟩

/-! ### Cross-stratum disjointness of the yielded vertex sets -/

theorem disj3_int_s01 (a b c dim : ℕ) (ha : 1 ≤ a) (hb : 1 ≤ b) (hc : 1 ≤ c) :
    List.Disjoint ((interiorYields [((b * c : ℕ) : ℤ), ((c : ℕ) : ℤ), 1] a b c dim).map pyVertexSet)
      ((slabYields ((b * c : ℕ) : ℤ) ((c : ℕ) : ℤ) a b dim).map pyVertexSet) := by
  refine map_disjoint_of_lasts (shape3_int a b c dim) (shape3_s01 a b c dim hc) ?_
  intro v1 hv1 v2 hv2
  obtain ⟨-, -, -, -, xA, yA, zA, hA1, hA2, hA3, hA4, hA5, hA6, lA, -, -, -, hlastA, -⟩ := interior_master a b c dim v1 hv1
  obtain ⟨-, xB, yB, hB1, hB2, hB3, hB4, lB, -, -, -, hlastB, -⟩ := master3_s01 a b c dim v2 hc hv2
  rw [hlastA, hlastB]
  intro hcon
  exact digit_conflict b c xA yA zA xB yB 0 (by omega) (by omega)
    (by omega) (by omega) (by omega) (Option.some.inj hcon)

theorem disj3_int_s02 (a b c dim : ℕ) (ha : 1 ≤ a) (hb : 1 ≤ b) (hc : 1 ≤ c) :
    List.Disjoint ((interiorYields [((b * c : ℕ) : ℤ), ((c : ℕ) : ℤ), 1] a b c dim).map pyVertexSet)
      ((slabYields ((b * c : ℕ) : ℤ) 1 a c dim).map pyVertexSet) := by
  refine map_disjoint_of_lasts (shape3_int a b c dim) (shape3_s02 a b c dim hb) ?_
  intro v1 hv1 v2 hv2
  obtain ⟨-, -, -, -, xA, yA, zA, hA1, hA2, hA3, hA4, hA5, hA6, lA, -, -, -, hlastA, -⟩ := interior_master a b c dim v1 hv1
  obtain ⟨-, xB, zB, hB1, hB2, hB3, hB4, lB, -, -, -, hlastB, -⟩ := master3_s02 a b c dim v2 hb hv2
  rw [hlastA, hlastB]
  intro hcon
  exact digit_conflict b c xA yA zA xB 0 zB (by omega) (by omega)
    (by omega) (by omega) (by omega) (Option.some.inj hcon)

theorem disj3_int_s12 (a b c dim : ℕ) (ha : 1 ≤ a) (hb : 1 ≤ b) (hc : 1 ≤ c) :
    List.Disjoint ((interiorYields [((b * c : ℕ) : ℤ), ((c : ℕ) : ℤ), 1] a b c dim).map pyVertexSet)
      ((slabYields ((c : ℕ) : ℤ) 1 b c dim).map pyVertexSet) := by
  refine map_disjoint_of_lasts (shape3_int a b c dim) (shape3_s12 a b c dim ha) ?_
  intro v1 hv1 v2 hv2
  obtain ⟨-, -, -, -, xA, yA, zA, hA1, hA2, hA3, hA4, hA5, hA6, lA, -, -, -, hlastA, -⟩ := interior_master a b c dim v1 hv1
  obtain ⟨-, yB, zB, hB1, hB2, hB3, hB4, lB, -, -, -, hlastB, -⟩ := master3_s12 a b c dim v2 ha hv2
  rw [hlastA, hlastB]
  intro hcon
  exact digit_conflict b c xA yA zA 0 yB zB (by omega) (by omega)
    (by omega) (by omega) (by omega) (Option.some.inj hcon)

theorem disj3_int_e0 (a b c dim : ℕ) (ha : 1 ≤ a) (hb : 1 ≤ b) (hc : 1 ≤ c) :
    List.Disjoint ((interiorYields [((b * c : ℕ) : ℤ), ((c : ℕ) : ℤ), 1] a b c dim).map pyVertexSet)
      ((edgeYields ((b * c : ℕ) : ℤ) a dim).map pyVertexSet) := by
  refine map_disjoint_of_lasts (shape3_int a b c dim) (shape3_e0 a b c dim hb hc) ?_
  intro v1 hv1 v2 hv2
  obtain ⟨-, -, -, -, xA, yA, zA, hA1, hA2, hA3, hA4, hA5, hA6, lA, -, -, -, hlastA, -⟩ := interior_master a b c dim v1 hv1
  obtain ⟨-, xB, hB1, hB2, lB, -, -, -, hlastB, -⟩ := master3_e0 a b c dim v2 hb hc hv2
  rw [hlastA, hlastB]
  intro hcon
  exact digit_conflict b c xA yA zA xB 0 0 (by omega) (by omega)
    (by omega) (by omega) (by omega) (Option.some.inj hcon)

theorem disj3_int_e1 (a b c dim : ℕ) (ha : 1 ≤ a) (hb : 1 ≤ b) (hc : 1 ≤ c) :
    List.Disjoint ((interiorYields [((b * c : ℕ) : ℤ), ((c : ℕ) : ℤ), 1] a b c dim).map pyVertexSet)
      ((edgeYields ((c : ℕ) : ℤ) b dim).map pyVertexSet) := by
  refine map_disjoint_of_lasts (shape3_int a b c dim) (shape3_e1 a b c dim ha hc) ?_
  intro v1 hv1 v2 hv2
  obtain ⟨-, -, -, -, xA, yA, zA, hA1, hA2, hA3, hA4, hA5, hA6, lA, -, -, -, hlastA, -⟩ := interior_master a b c dim v1 hv1
  obtain ⟨-, yB, hB1, hB2, lB, -, -, -, hlastB, -⟩ := master3_e1 a b c dim v2 ha hc hv2
  rw [hlastA, hlastB]
  intro hcon
  exact digit_conflict b c xA yA zA 0 yB 0 (by omega) (by omega)
    (by omega) (by omega) (by omega) (Option.some.inj hcon)

theorem disj3_int_e2 (a b c dim : ℕ) (ha : 1 ≤ a) (hb : 1 ≤ b) (hc : 1 ≤ c) :
    List.Disjoint ((interiorYields [((b * c : ℕ) : ℤ), ((c : ℕ) : ℤ), 1] a b c dim).map pyVertexSet)
      ((edgeYields 1 c dim).map pyVertexSet) := by
  refine map_disjoint_of_lasts (shape3_int a b c dim) (shape3_e2 a b c dim ha hb) ?_
  intro v1 hv1 v2 hv2
  obtain ⟨-, -, -, -, xA, yA, zA, hA1, hA2, hA3, hA4, hA5, hA6, lA, -, -, -, hlastA, -⟩ := interior_master a b c dim v1 hv1
  obtain ⟨-, zB, hB1, hB2, lB, -, -, -, hlastB, -⟩ := master3_e2 a b c dim v2 ha hb hv2
  rw [hlastA, hlastB]
  intro hcon
  exact digit_conflict b c xA yA zA 0 0 zB (by omega) (by omega)
    (by omega) (by omega) (by omega) (Option.some.inj hcon)

theorem disj3_s01_s02 (a b c dim : ℕ) (ha : 1 ≤ a) (hb : 1 ≤ b) (hc : 1 ≤ c) :
    List.Disjoint ((slabYields ((b * c : ℕ) : ℤ) ((c : ℕ) : ℤ) a b dim).map pyVertexSet)
      ((slabYields ((b * c : ℕ) : ℤ) 1 a c dim).map pyVertexSet) := by
  refine map_disjoint_of_lasts (shape3_s01 a b c dim hc) (shape3_s02 a b c dim hb) ?_
  intro v1 hv1 v2 hv2
  obtain ⟨-, xA, yA, hA1, hA2, hA3, hA4, lA, -, -, -, hlastA, -⟩ := master3_s01 a b c dim v1 hc hv1
  obtain ⟨-, xB, zB, hB1, hB2, hB3, hB4, lB, -, -, -, hlastB, -⟩ := master3_s02 a b c dim v2 hb hv2
  rw [hlastA, hlastB]
  intro hcon
  exact digit_conflict b c xA yA 0 xB 0 zB (by omega) (by omega)
    (by omega) (by omega) (by omega) (Option.some.inj hcon)

theorem disj3_s01_s12 (a b c dim : ℕ) (ha : 1 ≤ a) (hb : 1 ≤ b) (hc : 1 ≤ c) :
    List.Disjoint ((slabYields ((b * c : ℕ) : ℤ) ((c : ℕ) : ℤ) a b dim).map pyVertexSet)
      ((slabYields ((c : ℕ) : ℤ) 1 b c dim).map pyVertexSet) := by
  refine map_disjoint_of_lasts (shape3_s01 a b c dim hc) (shape3_s12 a b c dim ha) ?_
  intro v1 hv1 v2 hv2
  obtain ⟨-, xA, yA, hA1, hA2, hA3, hA4, lA, -, -, -, hlastA, -⟩ := master3_s01 a b c dim v1 hc hv1
  obtain ⟨-, yB, zB, hB1, hB2, hB3, hB4, lB, -, -, -, hlastB, -⟩ := master3_s12 a b c dim v2 ha hv2
  rw [hlastA, hlastB]
  intro hcon
  exact digit_conflict b c xA yA 0 0 yB zB (by omega) (by omega)
    (by omega) (by omega) (by omega) (Option.some.inj hcon)

theorem disj3_s01_e0 (a b c dim : ℕ) (ha : 1 ≤ a) (hb : 1 ≤ b) (hc : 1 ≤ c) :
    List.Disjoint ((slabYields ((b * c : ℕ) : ℤ) ((c : ℕ) : ℤ) a b dim).map pyVertexSet)
      ((edgeYields ((b * c : ℕ) : ℤ) a dim).map pyVertexSet) := by
  refine map_disjoint_of_lasts (shape3_s01 a b c dim hc) (shape3_e0 a b c dim hb hc) ?_
  intro v1 hv1 v2 hv2
  obtain ⟨-, xA, yA, hA1, hA2, hA3, hA4, lA, -, -, -, hlastA, -⟩ := master3_s01 a b c dim v1 hc hv1
  obtain ⟨-, xB, hB1, hB2, lB, -, -, -, hlastB, -⟩ := master3_e0 a b c dim v2 hb hc hv2
  rw [hlastA, hlastB]
  intro hcon
  exact digit_conflict b c xA yA 0 xB 0 0 (by omega) (by omega)
    (by omega) (by omega) (by omega) (Option.some.inj hcon)

theorem disj3_s01_e1 (a b c dim : ℕ) (ha : 1 ≤ a) (hb : 1 ≤ b) (hc : 1 ≤ c) :
    List.Disjoint ((slabYields ((b * c : ℕ) : ℤ) ((c : ℕ) : ℤ) a b dim).map pyVertexSet)
      ((edgeYields ((c : ℕ) : ℤ) b dim).map pyVertexSet) := by
  refine map_disjoint_of_lasts (shape3_s01 a b c dim hc) (shape3_e1 a b c dim ha hc) ?_
  intro v1 hv1 v2 hv2
  obtain ⟨-, xA, yA, hA1, hA2, hA3, hA4, lA, -, -, -, hlastA, -⟩ := master3_s01 a b c dim v1 hc hv1
  obtain ⟨-, yB, hB1, hB2, lB, -, -, -, hlastB, -⟩ := master3_e1 a b c dim v2 ha hc hv2
  rw [hlastA, hlastB]
  intro hcon
  exact digit_conflict b c xA yA 0 0 yB 0 (by omega) (by omega)
    (by omega) (by omega) (by omega) (Option.some.inj hcon)

theorem disj3_s01_e2 (a b c dim : ℕ) (ha : 1 ≤ a) (hb : 1 ≤ b) (hc : 1 ≤ c) :
    List.Disjoint ((slabYields ((b * c : ℕ) : ℤ) ((c : ℕ) : ℤ) a b dim).map pyVertexSet)
      ((edgeYields 1 c dim).map pyVertexSet) := by
  refine map_disjoint_of_lasts (shape3_s01 a b c dim hc) (shape3_e2 a b c dim ha hb) ?_
  intro v1 hv1 v2 hv2
  obtain ⟨-, xA, yA, hA1, hA2, hA3, hA4, lA, -, -, -, hlastA, -⟩ := master3_s01 a b c dim v1 hc hv1
  obtain ⟨-, zB, hB1, hB2, lB, -, -, -, hlastB, -⟩ := master3_e2 a b c dim v2 ha hb hv2
  rw [hlastA, hlastB]
  intro hcon
  exact digit_conflict b c xA yA 0 0 0 zB (by omega) (by omega)
    (by omega) (by omega) (by omega) (Option.some.inj hcon)

theorem disj3_s02_s12 (a b c dim : ℕ) (ha : 1 ≤ a) (hb : 1 ≤ b) (hc : 1 ≤ c) :
    List.Disjoint ((slabYields ((b * c : ℕ) : ℤ) 1 a c dim).map pyVertexSet)
      ((slabYields ((c : ℕ) : ℤ) 1 b c dim).map pyVertexSet) := by
  refine map_disjoint_of_lasts (shape3_s02 a b c dim hb) (shape3_s12 a b c dim ha) ?_
  intro v1 hv1 v2 hv2
  obtain ⟨-, xA, zA, hA1, hA2, hA3, hA4, lA, -, -, -, hlastA, -⟩ := master3_s02 a b c dim v1 hb hv1
  obtain ⟨-, yB, zB, hB1, hB2, hB3, hB4, lB, -, -, -, hlastB, -⟩ := master3_s12 a b c dim v2 ha hv2
  rw [hlastA, hlastB]
  intro hcon
  exact digit_conflict b c xA 0 zA 0 yB zB (by omega) (by omega)
    (by omega) (by omega) (by omega) (Option.some.inj hcon)

theorem disj3_s02_e0 (a b c dim : ℕ) (ha : 1 ≤ a) (hb : 1 ≤ b) (hc : 1 ≤ c) :
    List.Disjoint ((slabYields ((b * c : ℕ) : ℤ) 1 a c dim).map pyVertexSet)
      ((edgeYields ((b * c : ℕ) : ℤ) a dim).map pyVertexSet) := by
  refine map_disjoint_of_lasts (shape3_s02 a b c dim hb) (shape3_e0 a b c dim hb hc) ?_
  intro v1 hv1 v2 hv2
  obtain ⟨-, xA, zA, hA1, hA2, hA3, hA4, lA, -, -, -, hlastA, -⟩ := master3_s02 a b c dim v1 hb hv1
  obtain ⟨-, xB, hB1, hB2, lB, -, -, -, hlastB, -⟩ := master3_e0 a b c dim v2 hb hc hv2
  rw [hlastA, hlastB]
  intro hcon
  exact digit_conflict b c xA 0 zA xB 0 0 (by omega) (by omega)
    (by omega) (by omega) (by omega) (Option.some.inj hcon)

theorem disj3_s02_e1 (a b c dim : ℕ) (ha : 1 ≤ a) (hb : 1 ≤ b) (hc : 1 ≤ c) :
    List.Disjoint ((slabYields ((b * c : ℕ) : ℤ) 1 a c dim).map pyVertexSet)
      ((edgeYields ((c : ℕ) : ℤ) b dim).map pyVertexSet) := by
  refine map_disjoint_of_lasts (shape3_s02 a b c dim hb) (shape3_e1 a b c dim ha hc) ?_
  intro v1 hv1 v2 hv2
  obtain ⟨-, xA, zA, hA1, hA2, hA3, hA4, lA, -, -, -, hlastA, -⟩ := master3_s02 a b c dim v1 hb hv1
  obtain ⟨-, yB, hB1, hB2, lB, -, -, -, hlastB, -⟩ := master3_e1 a b c dim v2 ha hc hv2
  rw [hlastA, hlastB]
  intro hcon
  exact digit_conflict b c xA 0 zA 0 yB 0 (by omega) (by omega)
    (by omega) (by omega) (by omega) (Option.some.inj hcon)

theorem disj3_s02_e2 (a b c dim : ℕ) (ha : 1 ≤ a) (hb : 1 ≤ b) (hc : 1 ≤ c) :
    List.Disjoint ((slabYields ((b * c : ℕ) : ℤ) 1 a c dim).map pyVertexSet)
      ((edgeYields 1 c dim).map pyVertexSet) := by
  refine map_disjoint_of_lasts (shape3_s02 a b c dim hb) (shape3_e2 a b c dim ha hb) ?_
  intro v1 hv1 v2 hv2
  obtain ⟨-, xA, zA, hA1, hA2, hA3, hA4, lA, -, -, -, hlastA, -⟩ := master3_s02 a b c dim v1 hb hv1
  obtain ⟨-, zB, hB1, hB2, lB, -, -, -, hlastB, -⟩ := master3_e2 a b c dim v2 ha hb hv2
  rw [hlastA, hlastB]
  intro hcon
  exact digit_conflict b c xA 0 zA 0 0 zB (by omega) (by omega)
    (by omega) (by omega) (by omega) (Option.some.inj hcon)

theorem disj3_s12_e0 (a b c dim : ℕ) (ha : 1 ≤ a) (hb : 1 ≤ b) (hc : 1 ≤ c) :
    List.Disjoint ((slabYields ((c : ℕ) : ℤ) 1 b c dim).map pyVertexSet)
      ((edgeYields ((b * c : ℕ) : ℤ) a dim).map pyVertexSet) := by
  refine map_disjoint_of_lasts (shape3_s12 a b c dim ha) (shape3_e0 a b c dim hb hc) ?_
  intro v1 hv1 v2 hv2
  obtain ⟨-, yA, zA, hA1, hA2, hA3, hA4, lA, -, -, -, hlastA, -⟩ := master3_s12 a b c dim v1 ha hv1
  obtain ⟨-, xB, hB1, hB2, lB, -, -, -, hlastB, -⟩ := master3_e0 a b c dim v2 hb hc hv2
  rw [hlastA, hlastB]
  intro hcon
  exact digit_conflict b c 0 yA zA xB 0 0 (by omega) (by omega)
    (by omega) (by omega) (by omega) (Option.some.inj hcon)

theorem disj3_s12_e1 (a b c dim : ℕ) (ha : 1 ≤ a) (hb : 1 ≤ b) (hc : 1 ≤ c) :
    List.Disjoint ((slabYields ((c : ℕ) : ℤ) 1 b c dim).map pyVertexSet)
      ((edgeYields ((c : ℕ) : ℤ) b dim).map pyVertexSet) := by
  refine map_disjoint_of_lasts (shape3_s12 a b c dim ha) (shape3_e1 a b c dim ha hc) ?_
  intro v1 hv1 v2 hv2
  obtain ⟨-, yA, zA, hA1, hA2, hA3, hA4, lA, -, -, -, hlastA, -⟩ := master3_s12 a b c dim v1 ha hv1
  obtain ⟨-, yB, hB1, hB2, lB, -, -, -, hlastB, -⟩ := master3_e1 a b c dim v2 ha hc hv2
  rw [hlastA, hlastB]
  intro hcon
  exact digit_conflict b c 0 yA zA 0 yB 0 (by omega) (by omega)
    (by omega) (by omega) (by omega) (Option.some.inj hcon)

theorem disj3_s12_e2 (a b c dim : ℕ) (ha : 1 ≤ a) (hb : 1 ≤ b) (hc : 1 ≤ c) :
    List.Disjoint ((slabYields ((c : ℕ) : ℤ) 1 b c dim).map pyVertexSet)
      ((edgeYields 1 c dim).map pyVertexSet) := by
  refine map_disjoint_of_lasts (shape3_s12 a b c dim ha) (shape3_e2 a b c dim ha hb) ?_
  intro v1 hv1 v2 hv2
  obtain ⟨-, yA, zA, hA1, hA2, hA3, hA4, lA, -, -, -, hlastA, -⟩ := master3_s12 a b c dim v1 ha hv1
  obtain ⟨-, zB, hB1, hB2, lB, -, -, -, hlastB, -⟩ := master3_e2 a b c dim v2 ha hb hv2
  rw [hlastA, hlastB]
  intro hcon
  exact digit_conflict b c 0 yA zA 0 0 zB (by omega) (by omega)
    (by omega) (by omega) (by omega) (Option.some.inj hcon)

theorem disj3_e0_e1 (a b c dim : ℕ) (ha : 1 ≤ a) (hb : 1 ≤ b) (hc : 1 ≤ c) :
    List.Disjoint ((edgeYields ((b * c : ℕ) : ℤ) a dim).map pyVertexSet)
      ((edgeYields ((c : ℕ) : ℤ) b dim).map pyVertexSet) := by
  refine map_disjoint_of_lasts (shape3_e0 a b c dim hb hc) (shape3_e1 a b c dim ha hc) ?_
  intro v1 hv1 v2 hv2
  obtain ⟨-, xA, hA1, hA2, lA, -, -, -, hlastA, -⟩ := master3_e0 a b c dim v1 hb hc hv1
  obtain ⟨-, yB, hB1, hB2, lB, -, -, -, hlastB, -⟩ := master3_e1 a b c dim v2 ha hc hv2
  rw [hlastA, hlastB]
  intro hcon
  exact digit_conflict b c xA 0 0 0 yB 0 (by omega) (by omega)
    (by omega) (by omega) (by omega) (Option.some.inj hcon)

theorem disj3_e0_e2 (a b c dim : ℕ) (ha : 1 ≤ a) (hb : 1 ≤ b) (hc : 1 ≤ c) :
    List.Disjoint ((edgeYields ((b * c : ℕ) : ℤ) a dim).map pyVertexSet)
      ((edgeYields 1 c dim).map pyVertexSet) := by
  refine map_disjoint_of_lasts (shape3_e0 a b c dim hb hc) (shape3_e2 a b c dim ha hb) ?_
  intro v1 hv1 v2 hv2
  obtain ⟨-, xA, hA1, hA2, lA, -, -, -, hlastA, -⟩ := master3_e0 a b c dim v1 hb hc hv1
  obtain ⟨-, zB, hB1, hB2, lB, -, -, -, hlastB, -⟩ := master3_e2 a b c dim v2 ha hb hv2
  rw [hlastA, hlastB]
  intro hcon
  exact digit_conflict b c xA 0 0 0 0 zB (by omega) (by omega)
    (by omega) (by omega) (by omega) (Option.some.inj hcon)

theorem disj3_e1_e2 (a b c dim : ℕ) (ha : 1 ≤ a) (hb : 1 ≤ b) (hc : 1 ≤ c) :
    List.Disjoint ((edgeYields ((c : ℕ) : ℤ) b dim).map pyVertexSet)
      ((edgeYields 1 c dim).map pyVertexSet) := by
  refine map_disjoint_of_lasts (shape3_e1 a b c dim ha hc) (shape3_e2 a b c dim ha hb) ?_
  intro v1 hv1 v2 hv2
  obtain ⟨-, yA, hA1, hA2, lA, -, -, -, hlastA, -⟩ := master3_e1 a b c dim v1 ha hc hv1
  obtain ⟨-, zB, hB1, hB2, lB, -, -, -, hlastB, -⟩ := master3_e2 a b c dim v2 ha hb hv2
  rw [hlastA, hlastB]
  intro hcon
  exact digit_conflict b c 0 yA 0 0 0 zB (by omega) (by omega)
    (by omega) (by omega) (by omega) (Option.some.inj hcon)

theorem disj2_int_e0 (m n dim : ℕ) (hm : 1 ≤ m) (hn : 1 ≤ n) :
    List.Disjoint ((slabYields ((n : ℕ) : ℤ) 1 m n dim).map pyVertexSet)
      ((edgeYields ((n : ℕ) : ℤ) m dim).map pyVertexSet) := by
  refine map_disjoint_of_lasts (shape2_int m n dim) (shape2_e0 m n dim hn) ?_
  intro v1 hv1 v2 hv2
  obtain ⟨-, xA, yA, hA1, hA2, hA3, hA4, lA, -, -, -, hlastA, -⟩ := master2_int m n dim v1 hv1
  obtain ⟨-, xB, hB1, hB2, lB, -, -, -, hlastB, -⟩ := master2_e0 m n dim v2 hn hv2
  rw [hlastA, hlastB]
  intro hcon
  exact digit2_conflict n xA yA xB 0 (by omega) (by omega)
    (by omega) (Option.some.inj hcon)

theorem disj2_int_e1 (m n dim : ℕ) (hm : 1 ≤ m) (hn : 1 ≤ n) :
    List.Disjoint ((slabYields ((n : ℕ) : ℤ) 1 m n dim).map pyVertexSet)
      ((edgeYields 1 n dim).map pyVertexSet) := by
  refine map_disjoint_of_lasts (shape2_int m n dim) (shape2_e1 m n dim hm) ?_
  intro v1 hv1 v2 hv2
  obtain ⟨-, xA, yA, hA1, hA2, hA3, hA4, lA, -, -, -, hlastA, -⟩ := master2_int m n dim v1 hv1
  obtain ⟨-, yB, hB1, hB2, lB, -, -, -, hlastB, -⟩ := master2_e1 m n dim v2 hm hv2
  rw [hlastA, hlastB]
  intro hcon
  exact digit2_conflict n xA yA 0 yB (by omega) (by omega)
    (by omega) (Option.some.inj hcon)

theorem disj2_e0_e1 (m n dim : ℕ) (hm : 1 ≤ m) (hn : 1 ≤ n) :
    List.Disjoint ((edgeYields ((n : ℕ) : ℤ) m dim).map pyVertexSet)
      ((edgeYields 1 n dim).map pyVertexSet) := by
  refine map_disjoint_of_lasts (shape2_e0 m n dim hn) (shape2_e1 m n dim hm) ?_
  intro v1 hv1 v2 hv2
  obtain ⟨-, xA, hA1, hA2, lA, -, -, -, hlastA, -⟩ := master2_e0 m n dim v1 hn hv1
  obtain ⟨-, yB, hB1, hB2, lB, -, -, -, hlastB, -⟩ := master2_e1 m n dim v2 hm hv2
  rw [hlastA, hlastB]
  intro hcon
  exact digit2_conflict n xA 0 0 yB (by omega) (by omega)
    (by omega) (Option.some.inj hcon)

/-! ### Global uniqueness and shape of the decomposed streams -/

theorem nodup_map_decompose3d (a b c dim : ℕ) (ha : 1 ≤ a) (hb : 1 ≤ b) (hc : 1 ≤ c) :
    ((decompose3d a b c dim).map pyVertexSet).Nodup := by
  by_cases h1 : dim = 1
  · subst h1
    rw [decompose3d_one_eq, List.map_map]
    refine List.Nodup.map_on ?_ (List.nodup_range _)
    intro i1 hm1 i2 hm2 heq
    simp only [Function.comp_apply, pyVertexSet, Finset.singleton_inj, Nat.cast_inj] at heq
    exact heq
  · rw [decompose3d_parts, if_neg h1, List.append_nil]
    simp only [List.map_append]
    have hIm := nodup_map_part (nodup_interiorYields a b c dim) (shape3_int a b c dim)
    have hS01 := nodup_map_part (nodup_slab_bc a b c dim hc) (shape3_s01 a b c dim hc)
    have hS02 := nodup_map_part (nodup_slab_p1 a b c dim hb) (shape3_s02 a b c dim hb)
    have hS12 := nodup_map_part (nodup_slab_c1 b c dim) (shape3_s12 a b c dim ha)
    have hE0 := nodup_map_part (nodup_edge_bc a b c dim hb hc) (shape3_e0 a b c dim hb hc)
    have hE1 := nodup_map_part (nodup_edge_c b c dim hc) (shape3_e1 a b c dim ha hc)
    have hE2 := nodup_map_part (nodup_edge_1 c dim) (shape3_e2 a b c dim ha hb)
    refine List.Nodup.append (List.Nodup.append (List.Nodup.append (List.Nodup.append
      (List.Nodup.append (List.Nodup.append hIm hS01 (disj3_int_s01 a b c dim ha hb hc))
        hS02 ?_) hS12 ?_) hE0 ?_) hE1 ?_) hE2 ?_
    · rw [List.disjoint_append_left]
      exact ⟨disj3_int_s02 a b c dim ha hb hc, disj3_s01_s02 a b c dim ha hb hc⟩
    · rw [List.disjoint_append_left, List.disjoint_append_left]
      exact ⟨⟨disj3_int_s12 a b c dim ha hb hc, disj3_s01_s12 a b c dim ha hb hc⟩,
        disj3_s02_s12 a b c dim ha hb hc⟩
    · rw [List.disjoint_append_left, List.disjoint_append_left, List.disjoint_append_left]
      exact ⟨⟨⟨disj3_int_e0 a b c dim ha hb hc, disj3_s01_e0 a b c dim ha hb hc⟩,
        disj3_s02_e0 a b c dim ha hb hc⟩, disj3_s12_e0 a b c dim ha hb hc⟩
    · rw [List.disjoint_append_left, List.disjoint_append_left, List.disjoint_append_left,
        List.disjoint_append_left]
      exact ⟨⟨⟨⟨disj3_int_e1 a b c dim ha hb hc, disj3_s01_e1 a b c dim ha hb hc⟩,
        disj3_s02_e1 a b c dim ha hb hc⟩, disj3_s12_e1 a b c dim ha hb hc⟩,
        disj3_e0_e1 a b c dim ha hb hc⟩
    · rw [List.disjoint_append_left, List.disjoint_append_left, List.disjoint_append_left,
        List.disjoint_append_left, List.disjoint_append_left]
      exact ⟨⟨⟨⟨⟨disj3_int_e2 a b c dim ha hb hc, disj3_s01_e2 a b c dim ha hb hc⟩,
        disj3_s02_e2 a b c dim ha hb hc⟩, disj3_s12_e2 a b c dim ha hb hc⟩,
        disj3_e0_e2 a b c dim ha hb hc⟩, disj3_e1_e2 a b c dim ha hb hc⟩

theorem nodup_map_decompose2d (m n dim : ℕ) (hm : 1 ≤ m) (hn : 1 ≤ n) :
    ((decompose2d m n dim).map pyVertexSet).Nodup := by
  by_cases h1 : dim = 1
  · subst h1
    rw [decompose2d_one_eq, List.map_map]
    refine List.Nodup.map_on ?_ (List.nodup_range _)
    intro i1 hm1 i2 hm2 heq
    simp only [Function.comp_apply, pyVertexSet, Finset.singleton_inj, Nat.cast_inj] at heq
    exact heq
  · rw [decompose2d_parts, if_neg h1, List.append_nil]
    simp only [List.map_append]
    have hIm := nodup_map_part (nodup_slab_c1 m n dim) (shape2_int m n dim)
    have hE0 := nodup_map_part (nodup_edge_c m n dim hn) (shape2_e0 m n dim hn)
    have hE1 := nodup_map_part (nodup_edge_1 n dim) (shape2_e1 m n dim hm)
    refine List.Nodup.append (List.Nodup.append hIm hE0 (disj2_int_e0 m n dim hm hn)) hE1 ?_
    rw [List.disjoint_append_left]
    exact ⟨disj2_int_e1 m n dim hm hn, disj2_e0_e1 m n dim hm hn⟩

theorem decompose3d_simplex (a b c dim : ℕ) (ha : 1 ≤ a) (hb : 1 ≤ b) (hc : 1 ≤ c)
    (hdim : 2 ≤ dim) :
    ∀ v ∈ decompose3d a b c dim, ∃ l, v = PyVal.list l ∧ l.length = dim ∧
      List.Sorted (· < ·) l ∧ ∀ e ∈ l, 0 ≤ e ∧ e < ((a * b * c : ℕ) : ℤ) := by
  intro v hv
  rw [decompose3d_parts, if_neg (by omega : ¬dim = 1), List.append_nil] at hv
  simp only [List.mem_append] at hv
  rcases hv with ((((((hv | hv) | hv) | hv) | hv) | hv) | hv)
  · obtain ⟨-, -, -, -, x, y, z, -, -, -, -, -, -, l, hvl, hlen, hsort, -, hbnd⟩ :=
      interior_master a b c dim v hv
    exact ⟨l, hvl, hlen, hsort, hbnd⟩
  · obtain ⟨-, x, y, -, -, -, -, l, hvl, hlen, hsort, -, hbnd⟩ :=
      master3_s01 a b c dim v hc hv
    exact ⟨l, hvl, hlen, hsort, hbnd⟩
  · obtain ⟨-, x, z, -, -, -, -, l, hvl, hlen, hsort, -, hbnd⟩ :=
      master3_s02 a b c dim v hb hv
    exact ⟨l, hvl, hlen, hsort, hbnd⟩
  · obtain ⟨-, y, z, -, -, -, -, l, hvl, hlen, hsort, -, hbnd⟩ :=
      master3_s12 a b c dim v ha hv
    exact ⟨l, hvl, hlen, hsort, hbnd⟩
  · obtain ⟨-, x, -, -, l, hvl, hlen, hsort, -, hbnd⟩ := master3_e0 a b c dim v hb hc hv
    exact ⟨l, hvl, hlen, hsort, hbnd⟩
  · obtain ⟨-, y, -, -, l, hvl, hlen, hsort, -, hbnd⟩ := master3_e1 a b c dim v ha hc hv
    exact ⟨l, hvl, hlen, hsort, hbnd⟩
  · obtain ⟨-, z, -, -, l, hvl, hlen, hsort, -, hbnd⟩ := master3_e2 a b c dim v ha hb hv
    exact ⟨l, hvl, hlen, hsort, hbnd⟩

theorem decompose2d_simplex (m n dim : ℕ) (hm : 1 ≤ m) (hn : 1 ≤ n) (hdim : 2 ≤ dim) :
    ∀ v ∈ decompose2d m n dim, ∃ l, v = PyVal.list l ∧ l.length = dim ∧
      List.Sorted (· < ·) l ∧ ∀ e ∈ l, 0 ≤ e ∧ e < ((m * n : ℕ) : ℤ) := by
  intro v hv
  rw [decompose2d_parts, if_neg (by omega : ¬dim = 1), List.append_nil] at hv
  simp only [List.mem_append] at hv
  rcases hv with ((hv | hv) | hv)
  · obtain ⟨-, x, y, -, -, -, -, l, hvl, hlen, hsort, -, hbnd⟩ := master2_int m n dim v hv
    exact ⟨l, hvl, hlen, hsort, hbnd⟩
  · obtain ⟨-, x, -, -, l, hvl, hlen, hsort, -, hbnd⟩ := master2_e0 m n dim v hn hv
    exact ⟨l, hvl, hlen, hsort, hbnd⟩
  · obtain ⟨-, y, -, -, l, hvl, hlen, hsort, -, hbnd⟩ := master2_e1 m n dim v hm hv
    exact ⟨l, hvl, hlen, hsort, hbnd⟩

/-- Claim C2: for every shape with positive axis lengths and every fixed
requested dimension, the stream yielded by decompose3d (resp. decompose2d)
contains no two elements that are identical as unordered vertex sets: the
list of vertex sets of the yields has no duplicate, so collecting the stream
into a set does not shrink it. -/
theorem claim_C2 :
    (∀ a b c dim : ℕ, 1 ≤ a → 1 ≤ b → 1 ≤ c →
      ((decompose3d a b c dim).map pyVertexSet).Nodup) ∧
    (∀ m n dim : ℕ, 1 ≤ m → 1 ≤ n → ((decompose2d m n dim).map pyVertexSet).Nodup) :=
  ⟨fun a b c dim ha hb hc => nodup_map_decompose3d a b c dim ha hb hc,
   fun m n dim hm hn => nodup_map_decompose2d m n dim hm hn⟩

/-- Claim C10: for every shape with positive axis lengths and every requested
dimension at least 2, each yield of decompose3d (resp. decompose2d) is a list
of exactly dim strictly increasing (hence pairwise distinct) vertex indices,
each lying in [0, prod(shape)). -/
theorem claim_C10 :
    (∀ a b c dim : ℕ, 1 ≤ a → 1 ≤ b → 1 ≤ c → 2 ≤ dim →
      ∀ v ∈ decompose3d a b c dim, ∃ l, v = PyVal.list l ∧ l.length = dim ∧
        List.Sorted (· < ·) l ∧ ∀ e ∈ l, 0 ≤ e ∧ e < ((a * b * c : ℕ) : ℤ)) ∧
    (∀ m n dim : ℕ, 1 ≤ m → 1 ≤ n → 2 ≤ dim →
      ∀ v ∈ decompose2d m n dim, ∃ l, v = PyVal.list l ∧ l.length = dim ∧
        List.Sorted (· < ·) l ∧ ∀ e ∈ l, 0 ≤ e ∧ e < ((m * n : ℕ) : ℤ)) :=
  ⟨fun a b c dim ha hb hc hdim => decompose3d_simplex a b c dim ha hb hc hdim,
   fun m n dim hm hn hdim => decompose2d_simplex m n dim hm hn hdim⟩

/-! ### The generators never raise on 3-d shapes -/

theorem cubeE_ok (center strides : List ℤ) (h1 : 0 < center.length)
    (h2 : center.length ≤ 3) (h3 : strides.length = center.length) :
    cubeE center strides = Except.ok (cube_with_strides_center center strides) := by
  rw [cubeE, if_neg (show ¬¬(0 < center.length ∧ center.length ≤ 3) from by
    push_neg
    exact ⟨h1, h2⟩), if_neg (show ¬strides.length ≠ center.length from by simp [h3])]

theorem interiorYieldsE_ok (s : List ℤ) (a b c dim : ℕ) (hs : s.length = 3) :
    interiorYieldsE s a b c dim = Except.ok (interiorYields s a b c dim) := by
  have hok : ∀ ct : List ℤ, ct.length = 3 →
      cubeE ct s = Except.ok (cube_with_strides_center ct s) :=
    fun ct hct => cubeE_ok ct s (by omega) (by omega) (by omega)
  simp only [interiorYieldsE, hok [0, 0, -1] rfl, hok [0, -1, 0] rfl, hok [0, -1, -1] rfl,
    hok [-1, 0, 0] rfl, hok [-1, 0, -1] rfl, hok [-1, -1, 0] rfl, hok [-1, -1, -1] rfl,
    hok [0, 0, 0] rfl]
  rfl

theorem slabYieldsE_ok (p q : ℤ) (m n dim : ℕ) :
    slabYieldsE p q m n dim = Except.ok (slabYields p q m n dim) := by
  have hok : ∀ ct : List ℤ, ct.length = 2 →
      cubeE ct [p, q] = Except.ok (cube_with_strides_center ct [p, q]) :=
    fun ct hct => cubeE_ok ct [p, q] (by omega) (by omega) (by simp [hct])
  simp only [slabYieldsE, hok [0, -1] rfl, hok [-1, 0] rfl, hok [-1, -1] rfl, hok [0, 0] rfl]
  rfl

theorem edgeYieldsE_ok (st : ℤ) (m dim : ℕ) :
    edgeYieldsE st m dim = Except.ok (edgeYields st m dim) := by
  have hok : ∀ ct : List ℤ, ct.length = 1 →
      cubeE ct [st] = Except.ok (cube_with_strides_center ct [st]) :=
    fun ct hct => cubeE_ok ct [st] (by omega) (by omega) (by simp [hct])
  simp only [edgeYieldsE, hok [-1] rfl, hok [0] rfl]
  rfl

theorem stridesOf_three (a b c : ℕ) : stridesOf [(a : ℕ), b, c] = strides3 a b c := by
  simp [stridesOf, strides3]

theorem decompose3dE_ok (a b c dim : ℕ) :
    decompose3dE [a, b, c] dim = Except.ok (decompose3d a b c dim) := by
  simp only [decompose3dE, stridesOf_three, List.getD_cons_zero, List.getD_cons_succ]
  rw [interiorYieldsE_ok _ _ _ _ _ (by simp [strides3]), slabYieldsE_ok, slabYieldsE_ok,
    slabYieldsE_ok, edgeYieldsE_ok, edgeYieldsE_ok, edgeYieldsE_ok]
  have hfold : List.foldr (fun x1 x2 => x1 * x2) 1 [a, b, c] = a * b * c := by
    simp [mul_assoc]
  simp only [hfold]
  rfl

/-- Claim C9: a 3-d shape with a degenerate axis (length at most 1, the other
axes arbitrary) never raises: the generator with explicit ValueError behavior
returns ok of the plain stream, and the interior, slab and edge position
loops along a degenerate extent contribute zero base positions. -/
theorem claim_C9 :
    (∀ a b c dim : ℕ, a ≤ 1 ∨ b ≤ 1 ∨ c ≤ 1 →
      decompose3dE [a, b, c] dim = Except.ok (decompose3d a b c dim)) ∧
    (∀ s : List ℤ, ∀ x y z : ℕ, x ≤ 1 →
      positions3 s x y z = [] ∧ positions3 s y x z = [] ∧ positions3 s y z x = []) ∧
    (∀ p q : ℤ, ∀ x y : ℕ, x ≤ 1 → positions2 p q x y = [] ∧ positions2 p q y x = []) ∧
    (∀ st : ℤ, ∀ x : ℕ, x ≤ 1 → positions1 st x = []) := by
  refine ⟨fun a b c dim h => decompose3dE_ok a b c dim, ?_, ?_, ?_⟩
  · intro s x y z hx
    exact ⟨positions3_degenerate _ _ _ _ (by omega), positions3_degenerate _ _ _ _ (by omega),
      positions3_degenerate _ _ _ _ (by omega)⟩
  · intro p q x y hx
    exact ⟨positions2_degenerate _ _ _ _ (by omega), positions2_degenerate _ _ _ _ (by omega)⟩
  · intro st x hx
    exact positions1_degenerate _ _ (by omega)

end Nipy
